import Mathlib

/-!
Shallow embedding of the Steina scratch-vm fork (shickey/scratch-vm-steina).

Sources embedded here:
* `src/extensions/video/index.js` — the unified `SteinaBlocks` extension
  (media-block primitives, `_queueSound`, `_queueVideo`, the
  `PROJECT_STOP_ALL` handler, motion predicates).
* `src/extensions/steina/index.js` — contains the engine `Sequencer`
  (`stepThreads`, `stepThread`) together with the legacy extension variant
  (whose `whenTapped` differs from the unified one).
* `src/steina/audio-target.js` — `AudioTarget` (with
  `MAX_SIMULTANEOUS_NONBLOCKING_SOUNDS = 25`) and the `VideoTarget` whose
  `setCurrentFrame` clamps to `[0, frames - 1]`.

JavaScript numbers are modelled as rationals (`ℚ`); object maps keyed by ids
are modelled as association lists (`List (Nat × _)`); `uid()` is modelled by
a fresh-id counter threaded through the state.
-/

namespace Steina

/-- Thread status values from `engine/thread.js` (spec section 3). -/
inductive TStatus where
  | running
  | promiseWait
  | yield
  | yieldTick
  | done
deriving DecidableEq, Repr

/-- An entry of `audioState.playing`, as built by
`SteinaBlocks._queueSound` in `src/extensions/video/index.js`. -/
structure AudioPlay where
  audioTargetId : Nat
  sampleRate : ℚ
  start : ℚ
  end_ : ℚ
  playbackRate : ℚ
  prevPlayhead : ℚ
  playhead : ℚ
  blocking : Bool
deriving DecidableEq, Repr

/-- The audio-specific state of `AudioTarget` in `src/steina/audio-target.js`
(the variant declaring `MAX_SIMULTANEOUS_NONBLOCKING_SOUNDS`). -/
structure AudioTarget where
  id : Nat
  totalSamples : ℚ
  sampleRate : ℚ
  trimStart : ℚ
  trimEnd : ℚ
  playbackRate : ℚ
  nonblockingSoundsAvailable : ℤ
deriving DecidableEq, Repr

/-- `AudioTarget.MAX_SIMULTANEOUS_NONBLOCKING_SOUNDS` (= 25). -/
def MAX_SIMULTANEOUS_NONBLOCKING_SOUNDS : ℤ := 25

/-- The audio-relevant runtime state: the target registry, the
`audioState.playing` map (keyed by play id) and the fresh-id counter that
models `uid()`. -/
structure AudioState where
  targets : List AudioTarget
  playing : List (Nat × AudioPlay)
  nextId : Nat
deriving DecidableEq, Repr

/-- `runtime.getTargetById` restricted to audio targets. -/
def getAudioTargetById (targets : List AudioTarget) (tid : Nat) : Option AudioTarget :=
  targets.find? (fun t => t.id == tid)

/-- Increment `nonblockingSoundsAvailable` of the target found by id
(`target.nonblockingSoundsAvailable++` after `getTargetById` in
`Sequencer.stepThreads`); the first match is updated, as a JS id lookup
returns a single object. -/
def incrementAvailable : List AudioTarget → Nat → List AudioTarget
  | [], _ => []
  | t :: ts, tid =>
      if t.id = tid then
        { t with nonblockingSoundsAvailable := t.nonblockingSoundsAvailable + 1 } :: ts
      else
        t :: incrementAvailable ts tid

/-- Decrement `nonblockingSoundsAvailable` of the target found by id
(`target.nonblockingSoundsAvailable--` in `startSound` /
`startSoundFromAToB`). -/
def decrementAvailable : List AudioTarget → Nat → List AudioTarget
  | [], _ => []
  | t :: ts, tid =>
      if t.id = tid then
        { t with nonblockingSoundsAvailable := t.nonblockingSoundsAvailable - 1 } :: ts
      else
        t :: decrementAvailable ts tid

/-- `SteinaBlocks._queueSound(runtime, audioTarget, start, end, playbackRate,
blocking)` from `src/extensions/video/index.js` lines 1256-1273. -/
def queueSound (s : AudioState) (t : AudioTarget) (start end_ playbackRate : ℚ)
    (blocking : Bool) : AudioState :=
  let firstSample := max start 0
  let lastSample := min end_ (t.totalSamples - 1)
  { s with
    playing := s.playing ++ [(s.nextId,
      { audioTargetId := t.id
        sampleRate := t.sampleRate
        start := firstSample
        end_ := lastSample
        playbackRate := playbackRate
        prevPlayhead := firstSample
        playhead := firstSample
        blocking := blocking })]
    nextId := s.nextId + 1 }

/-- `SteinaBlocks.startSound`: queue a non-blocking play over the whole trim
range and decrement the slot counter, but only when
`nonblockingSoundsAvailable > 0` (lines 1173-1183). The primitive receives
`util.target`; an id that resolves to no target is a no-op event. -/
def startSound (tid : Nat) (s : AudioState) : AudioState :=
  match getAudioTargetById s.targets tid with
  | none => s
  | some t =>
      if 0 < t.nonblockingSoundsAvailable then
        let s1 := queueSound s t t.trimStart t.trimEnd t.playbackRate false
        { s1 with targets := decrementAvailable s1.targets tid }
      else s

/-- `SteinaBlocks.startSoundFromAToB` (lines 1206-1217): same slot-counter
guard, with the marker arguments as range. -/
def startSoundFromAToB (tid : Nat) (a b : ℚ) (s : AudioState) : AudioState :=
  match getAudioTargetById s.targets tid with
  | none => s
  | some t =>
      if 0 < t.nonblockingSoundsAvailable then
        let s1 := queueSound s t a b t.playbackRate false
        { s1 with targets := decrementAvailable s1.targets tid }
      else s

/-- Queueing effect of a first entry into `SteinaBlocks.playSound`
(lines 1185-1204): a blocking play over the trim range; the slot counter is
not consulted. -/
def playSoundQueue (tid : Nat) (s : AudioState) : AudioState :=
  match getAudioTargetById s.targets tid with
  | none => s
  | some t => queueSound s t t.trimStart t.trimEnd t.playbackRate true

/-- Queueing effect of a first entry into `SteinaBlocks.playSoundFromAToB`
(lines 1219-1241). -/
def playSoundFromAToBQueue (tid : Nat) (a b : ℚ) (s : AudioState) : AudioState :=
  match getAudioTargetById s.targets tid with
  | none => s
  | some t => queueSound s t a b t.playbackRate true

/-- Per-sound advancement in `Sequencer.stepThreads`
(`src/extensions/steina/index.js` lines 860-866): the increment is
`(currentStepTime / 1000) * sound.sampleRate`; the next playhead is capped
at `sound.end`; `prevPlayhead` receives the pre-update playhead. -/
def advanceSound (stepTime : ℚ) (snd : AudioPlay) : AudioPlay :=
  let sampleIncrement := stepTime / 1000 * snd.sampleRate
  let nextPlayhead := snd.playhead + sampleIncrement
  let nextPlayhead := if nextPlayhead > snd.end_ then snd.end_ else nextPlayhead
  { snd with prevPlayhead := snd.playhead, playhead := nextPlayhead }

/-- The audio phase of `Sequencer.stepThreads` (lines 849-882): sounds whose
`playhead` equals `end` are scheduled for removal, all others are advanced;
each removed non-blocking sound increments its owner's
`nonblockingSoundsAvailable`. -/
def audioTick (stepTime : ℚ) (s : AudioState) : AudioState :=
  let toRemove := s.playing.filter (fun p => p.2.playhead == p.2.end_)
  let advanced := (s.playing.filter (fun p => !(p.2.playhead == p.2.end_))).map
    (fun p => (p.1, advanceSound stepTime p.2))
  let targets := toRemove.foldl
    (fun ts p => if p.2.blocking then ts else incrementAvailable ts p.2.audioTargetId)
    s.targets
  { s with targets := targets, playing := advanced }

/-- The audio half of the `PROJECT_STOP_ALL` handler installed by the
`SteinaBlocks` constructor (`src/extensions/video/index.js` lines 182-192):
clear `audioState.playing` and reset every audio target's
`nonblockingSoundsAvailable` to the maximum. -/
def stopAllAudio (s : AudioState) : AudioState :=
  { s with
    playing := []
    targets := s.targets.map
      (fun t => { t with nonblockingSoundsAvailable := MAX_SIMULTANEOUS_NONBLOCKING_SOUNDS }) }

/-- The operations that touch `audioState.playing` or the slot counters:
the four queueing primitives, the per-tick advancement, and STOP_ALL. -/
inductive AudioEvent where
  | startSound (tid : Nat)
  | startSoundFromAToB (tid : Nat) (a b : ℚ)
  | playSound (tid : Nat)
  | playSoundFromAToB (tid : Nat) (a b : ℚ)
  | tick (stepTime : ℚ)
  | stopAll
deriving DecidableEq, Repr

/-- Interpretation of one audio event. -/
def audioStep : AudioEvent → AudioState → AudioState
  | .startSound tid, s => startSound tid s
  | .startSoundFromAToB tid a b, s => startSoundFromAToB tid a b s
  | .playSound tid, s => playSoundQueue tid s
  | .playSoundFromAToB tid a b, s => playSoundFromAToBQueue tid a b s
  | .tick stepTime, s => audioTick stepTime s
  | .stopAll, s => stopAllAudio s

/-- Run a sequence of audio events. -/
def runAudio (events : List AudioEvent) (s : AudioState) : AudioState :=
  events.foldl (fun s e => audioStep e s) s

/-- Number of non-blocking plays owned by target `tid` in the play map. -/
def countNonblocking (playing : List (Nat × AudioPlay)) (tid : Nat) : Nat :=
  (playing.filter (fun p => !p.2.blocking && p.2.audioTargetId == tid)).length

/-- Initial audio state: the play map starts empty and every target's
counter starts at `MAX_SIMULTANEOUS_NONBLOCKING_SOUNDS` (the `AudioTarget`
constructor); target ids are distinct, as they mirror distinct Core Data
objects. -/
def AudioInit (s : AudioState) : Prop :=
  s.playing = [] ∧ (s.targets.map (fun t => t.id)).Nodup ∧
    ∀ t ∈ s.targets, t.nonblockingSoundsAvailable = MAX_SIMULTANEOUS_NONBLOCKING_SOUNDS

/-- Modelled from the spec: `MathUtil.clamp(n, min, max)` lives in
`util/math-util.js`, which is not under `src/`; spec sections 4.2 and 8
describe it as clamping into the closed interval. -/
def clamp (n lo hi : ℚ) : ℚ := min (max n lo) hi

/-- The video-specific state of the `VideoTarget` declared in
`src/steina/audio-target.js` (the variant whose `setCurrentFrame` clamps to
`[0, frames - 1]`), together with the `trimStart` / `trimEnd` attributes the
unified extension and the sequencer read on video targets (spec section 3). -/
structure VideoTarget where
  id : Nat
  fps : ℚ
  frames : ℚ
  currentFrame : ℚ
  playbackRate : ℚ
  trimStart : ℚ
  trimEnd : ℚ
  tapped : Bool
  playing : Bool
deriving DecidableEq, Repr

/-- `VideoTarget.setCurrentFrame(frame)`: clamp into `[0, frames - 1]`
(`src/steina/audio-target.js` lines 334-337). -/
def setCurrentFrame (t : VideoTarget) (frame : ℚ) : VideoTarget :=
  { t with currentFrame := clamp frame 0 (t.frames - 1) }

/-- `SteinaBlocks.getCurrentFrame` (`src/extensions/video/index.js` lines
1157-1161): report the current frame 1-indexed relative to `trimStart`. -/
def getCurrentFrame (t : VideoTarget) : ℚ :=
  (t.currentFrame - t.trimStart) + 1

/-- `SteinaBlocks.whenTapped` of the unified extension
(`src/extensions/video/index.js` lines 1152-1155): report the `tapped`
flag; the target is not modified. -/
def whenTapped (t : VideoTarget) : Bool × VideoTarget :=
  (t.tapped, t)

/-- `SteinaBlocks.whenTapped` of the legacy extension
(`src/extensions/steina/index.js` lines 546-553): when the flag is set,
clear it and report true; otherwise report false. -/
def legacyWhenTapped (t : VideoTarget) : Bool × VideoTarget :=
  if t.tapped then (true, { t with tapped := false }) else (false, t)

/-- An entry of the unified extension's `videoState.playing` map, as built
by `SteinaBlocks._queueVideo` (`src/extensions/video/index.js` lines
905-919). -/
structure VideoPlay where
  id : Nat
  start : ℚ
  end_ : ℚ
  threadTopBlock : Nat
  blocking : Bool
deriving DecidableEq, Repr

/-- Overwriting insertion into a JS object map: an existing key keeps its
position and receives the new value, a new key is appended. -/
def assocSet (l : List (Nat × VideoPlay)) (k : Nat) (v : VideoPlay) :
    List (Nat × VideoPlay) :=
  if (l.lookup k).isSome then
    l.map (fun p => if p.1 = k then (k, v) else p)
  else
    l ++ [(k, v)]

/-- The state a media-block primitive of the unified extension can reach
through `util`: the two play queues with the fresh-id counter, the target,
the thread's status and top block, and the `playingId` scratch slot of the
current stack frame (spec section 4.4). -/
structure VideoUtil where
  videoPlaying : List (Nat × VideoPlay)
  nextId : Nat
  target : VideoTarget
  status : TStatus
  topBlock : Nat
  playingId : Option Nat
deriving DecidableEq, Repr

/-- `SteinaBlocks._queueVideo(runtime, thread, videoTarget, start, end,
blocking)`: build a play with a fresh id and overwrite the target's slot in
`videoState.playing`; return the id. -/
def queueVideo (u : VideoUtil) (start end_ : ℚ) (blocking : Bool) :
    Nat × VideoUtil :=
  let id := u.nextId
  let playingVideo : VideoPlay :=
    { id := id, start := start, end_ := end_, threadTopBlock := u.topBlock
      blocking := blocking }
  (id, { u with
          videoPlaying := assocSet u.videoPlaying u.target.id playingVideo
          nextId := u.nextId + 1 })

/-- The shared subsequent-entry branch of the blocking video primitives:
look the target's play up; when it is gone or carries a different id,
return with the state untouched, otherwise yield for one more tick. -/
def videoSubsequentEntry (u : VideoUtil) (playingId : Nat) : VideoUtil :=
  match u.videoPlaying.lookup u.target.id with
  | none => u
  | some playingVideo =>
      if playingVideo.id ≠ playingId then u
      else { u with status := .yieldTick }

/-- `SteinaBlocks.playEntireVideoUntilDone` (lines 921-940). -/
def playEntireVideoUntilDone (u : VideoUtil) : VideoUtil :=
  match u.playingId with
  | none =>
      let u := { u with target := { u.target with currentFrame := u.target.trimStart } }
      let (playingId, u) := queueVideo u u.target.trimStart u.target.trimEnd true
      { u with playingId := some playingId, status := .yieldTick }
  | some playingId => videoSubsequentEntry u playingId

/-- `SteinaBlocks.playVideoFromAToB` (lines 942-964). -/
def playVideoFromAToB (a b : ℚ) (u : VideoUtil) : VideoUtil :=
  match u.playingId with
  | none =>
      let u := { u with target := { u.target with currentFrame := a } }
      let (playingId, u) := queueVideo u a b true
      { u with playingId := some playingId, status := .yieldTick }
  | some playingId => videoSubsequentEntry u playingId

/-- `SteinaBlocks.playForwardUntilDone` (lines 1056-1074). -/
def playForwardUntilDone (u : VideoUtil) : VideoUtil :=
  match u.playingId with
  | none =>
      let (playingId, u) := queueVideo u u.target.currentFrame u.target.trimEnd true
      { u with playingId := some playingId, status := .yieldTick }
  | some playingId => videoSubsequentEntry u playingId

/-- `SteinaBlocks.playBackwardUntilDone` (lines 1076-1094). -/
def playBackwardUntilDone (u : VideoUtil) : VideoUtil :=
  match u.playingId with
  | none =>
      let (playingId, u) := queueVideo u u.target.currentFrame u.target.trimStart true
      { u with playingId := some playingId, status := .yieldTick }
  | some playingId => videoSubsequentEntry u playingId

/-- `SteinaBlocks.playNFrames` (lines 1034-1054). -/
def playNFrames (framesArg : ℚ) (u : VideoUtil) : VideoUtil :=
  match u.playingId with
  | none =>
      let endFrame := clamp (u.target.currentFrame + framesArg) u.target.trimStart u.target.trimEnd
      let (playingId, u) := queueVideo u u.target.currentFrame endFrame true
      { u with playingId := some playingId, status := .yieldTick }
  | some playingId => videoSubsequentEntry u playingId

/-- The state the blocking audio primitives reach through `util`. -/
structure AudioUtil where
  audio : AudioState
  targetId : Nat
  status : TStatus
  playingId : Option Nat
deriving DecidableEq, Repr

/-- `SteinaBlocks.playSound` (lines 1185-1204): first entry queues a
blocking play over the trim range and yields; a subsequent entry yields
again only while the play id is still present in `audioState.playing`. -/
def playSound (u : AudioUtil) : AudioUtil :=
  match u.playingId with
  | none =>
      let id := u.audio.nextId
      { u with
        audio := playSoundQueue u.targetId u.audio
        playingId := some id
        status := .yieldTick }
  | some playingId =>
      match u.audio.playing.lookup playingId with
      | none => u
      | some _ => { u with status := .yieldTick }

/-- `SteinaBlocks.playSoundFromAToB` (lines 1219-1241). -/
def playSoundFromAToB (a b : ℚ) (u : AudioUtil) : AudioUtil :=
  match u.playingId with
  | none =>
      let id := u.audio.nextId
      { u with
        audio := playSoundFromAToBQueue u.targetId a b u.audio
        playingId := some id
        status := .yieldTick }
  | some playingId =>
      match u.audio.playing.lookup playingId with
      | none => u
      | some _ => { u with status := .yieldTick }

/-- Whether a blocking video primitive's stored play id is stale: the
target's queue slot is empty or holds a play with a different id. -/
def videoStale (u : VideoUtil) (playingId : Nat) : Prop :=
  match u.videoPlaying.lookup u.target.id with
  | none => True
  | some playingVideo => playingVideo.id ≠ playingId

instance (u : VideoUtil) (playingId : Nat) : Decidable (videoStale u playingId) := by
  unfold videoStale
  cases u.videoPlaying.lookup u.target.id with
  | none => exact isTrue trivial
  | some pv => exact inferInstanceAs (Decidable (pv.id ≠ playingId))

/-- The runtime state the unified extension manipulates outside of thread
stepping: both play queues, both target registries and the fresh-id
counter. -/
structure ExtRuntime where
  videoPlaying : List (Nat × VideoPlay)
  audioPlaying : List (Nat × AudioPlay)
  videoTargets : List VideoTarget
  audioTargets : List AudioTarget
  nextId : Nat
deriving DecidableEq, Repr

/-- The `PROJECT_STOP_ALL` handler installed by the `SteinaBlocks`
constructor (`src/extensions/video/index.js` lines 182-192): reset both
play maps to empty objects and set `nonblockingSoundsAvailable` back to the
maximum on every target owning that property (exactly the audio targets). -/
def projectStopAll (rt : ExtRuntime) : ExtRuntime :=
  { rt with
    videoPlaying := []
    audioPlaying := []
    audioTargets := rt.audioTargets.map
      (fun t => { t with nonblockingSoundsAvailable := MAX_SIMULTANEOUS_NONBLOCKING_SOUNDS }) }

/-- `SteinaBlocks.stopPlaying` (lines 1021-1026): delete the target's own
entry from `videoState.playing` when present. -/
def stopPlaying (rt : ExtRuntime) (target : VideoTarget) : ExtRuntime :=
  if (rt.videoPlaying.lookup target.id).isSome then
    { rt with videoPlaying := rt.videoPlaying.filter (fun p => !(p.1 == target.id)) }
  else rt

/-- `COMPASS_THRESHOLD` (20 degrees). -/
def COMPASS_THRESHOLD : ℚ := 20

/-- The cardinal-direction menu values. -/
inductive CardinalDirection where
  | north
  | south
  | east
  | west
deriving DecidableEq, Repr

/-- `SteinaBlocks._isPointed(direction)` (lines 1319-1334), with the
device heading passed explicitly in place of `runtime.motion.heading`. -/
def isPointed (compass : ℚ) : CardinalDirection → Bool
  | .north =>
      decide (compass ≤ COMPASS_THRESHOLD / 2 ∨ compass ≥ 360 - COMPASS_THRESHOLD / 2)
  | .south => decide (|compass - 180| ≤ COMPASS_THRESHOLD)
  | .east => decide (|compass - 90| ≤ COMPASS_THRESHOLD)
  | .west => decide (|compass - 270| ≤ COMPASS_THRESHOLD)

/-- A thread stack frame (spec section 3): `warpMode`, `isLoop` and
`waitingReporter` are the flags `Sequencer.stepThread` reads. -/
structure StackFrame where
  warpMode : Bool
  isLoop : Bool
  waitingReporter : Bool
deriving DecidableEq, Repr

/-- Modelled from the spec: `engine/thread.js` is not under `src/`.
Spec section 3 describes a thread as an ordered stack of block ids with
parallel stack frames, a status, an optional warp timer, and a target
reference that may be null. The stack head is the top; a `none` entry is
the null sentinel `stepToBranch` pushes for an empty branch. -/
structure SThread where
  stack : List (Option Nat)
  frames : List StackFrame
  status : TStatus
  warpTimerSet : Bool
  targetPresent : Bool
deriving DecidableEq, Repr

/-- `thread.peekStack()`: the top stack entry; both an empty stack and a
null sentinel are falsy to the sequencer's loops. -/
def peekStack (t : SThread) : Option Nat :=
  match t.stack with
  | [] => none
  | b :: _ => b

/-- `thread.popStack()`: drop the top stack entry and its frame. -/
def popStack (t : SThread) : SThread :=
  { t with stack := t.stack.tail, frames := t.frames.tail }

/-- The frame contents when no frame is present. -/
def defaultFrame : StackFrame := ⟨false, false, false⟩

/-- `thread.peekStackFrame()`. -/
def peekStackFrame (t : SThread) : StackFrame := t.frames.headD defaultFrame

/-- `thread.goToNextBlock()`: replace the top stack entry with the next
block of the current one, following the block graph `next`. -/
def goToNextBlock (next : Nat → Option Nat) (t : SThread) : SThread :=
  match t.stack with
  | [] => t
  | b :: rest => { t with stack := (b.bind next) :: rest }

/-- `Sequencer.retireThread` (`src/extensions/steina/index.js` lines
1069-1074): clear the stack and mark the thread done. -/
def retireThread (t : SThread) : SThread :=
  { t with stack := [], frames := [], status := .done }

/-- Modelled from the spec: the external collaborators of the sequencer
that are not under `src/`. `exec` is `execute(sequencer, thread)` (spec
section 6: runs one block, mutating the thread's stack and status),
consulted at its call index; `timeOk k` is the k-th evaluation of
`timer.timeElapsed() < WORK_TIME`; `warpOk k` is the k-th evaluation of
`warpTimer.timeElapsed() <= WARP_TIME`. -/
structure SeqOracle where
  exec : Nat → SThread → SThread
  timeOk : Nat → Bool
  warpOk : Nat → Bool

/-- The trailing `while (!thread.peekStack())` loop of
`Sequencer.stepThread` (lines 955-990): pop exhausted stack levels; an
empty stack retires the thread as DONE; a loop frame returns (or, in warp
mode with time left, re-enters the outer loop); a waiting-reporter frame
returns. The third component is true when control continues the outer
block-execution loop. -/
def popLoop (next : Nat → Option Nat) (warpOk : Nat → Bool) :
    Nat → Nat → SThread → SThread × Nat × Bool
  | 0, wc, t => (t, wc, false)
  | fuel + 1, wc, t =>
      match peekStack t with
      | some _ => (t, wc, true)
      | none =>
          let t := popStack t
          if t.stack.length = 0 then ({ t with status := .done }, wc, false)
          else
            let stackFrame := peekStackFrame t
            if stackFrame.isLoop then
              if stackFrame.warpMode = false then (t, wc, false)
              else if warpOk wc = false then (t, wc + 1, false)
              else popLoop next warpOk fuel (wc + 1) t
            else if stackFrame.waitingReporter then (t, wc, false)
            else popLoop next warpOk fuel wc (goToNextBlock next t)

/-- The main block-execution loop of `Sequencer.stepThread` (lines
898-991): start the warp timer if needed, retire the thread when its
target is gone, otherwise run one block through `execute`; then dispatch
on the resulting status (YIELD re-executes immediately in warp mode with
time left, PROMISE_WAIT and YIELD_TICK return), advance to the next block
when no control flow happened, and drain exhausted stack levels. Returns
the thread with the `execute` and warp-query counters. -/
def stepThreadLoop (next : Nat → Option Nat) (oracle : SeqOracle) :
    Nat → Nat → Nat → SThread → SThread × Nat × Nat
  | 0, ec, wc, t => (t, ec, wc)
  | fuel + 1, ec, wc, t =>
      match peekStack t with
      | none => (t, ec, wc)
      | some currentBlockId =>
          let isWarpMode := (peekStackFrame t).warpMode
          let t :=
            if isWarpMode && !t.warpTimerSet then { t with warpTimerSet := true } else t
          let (t, ec) :=
            if t.targetPresent = false then (retireThread t, ec)
            else (oracle.exec ec t, ec + 1)
          if t.status = .yield then
            let t := { t with status := .running }
            if isWarpMode then
              if oracle.warpOk wc then stepThreadLoop next oracle fuel ec (wc + 1) t
              else (t, ec, wc + 1)
            else (t, ec, wc)
          else if t.status = .promiseWait then (t, ec, wc)
          else if t.status = .yieldTick then (t, ec, wc)
          else
            let t := if peekStack t = some currentBlockId then goToNextBlock next t else t
            let r := popLoop next oracle.warpOk fuel wc t
            if r.2.2 then stepThreadLoop next oracle fuel ec r.2.1 r.1
            else (r.1, ec, r.2.1)

/-- `Sequencer.stepThread(thread)` (lines 891-992), including the initial
pop of a null top entry. -/
def stepThread (next : Nat → Option Nat) (oracle : SeqOracle)
    (fuel ec wc : Nat) (t : SThread) : SThread × Nat × Nat :=
  let t := if (peekStack t).isNone then popStack t else t
  stepThreadLoop next oracle fuel ec wc t

/-- One inner pass of `Sequencer.stepThreads` (lines 744-784) over the
parallel (thread, done-slot) list: threads with an empty stack or DONE
status get their slot set; others get the slot cleared, a YIELD_TICK
status is reset to RUNNING on the tick's first pass, RUNNING / YIELD
threads are stepped (and their warp timer cleared), and RUNNING survivors
are counted. Spec section 6 has `execute` mutate only the stepped thread,
so the list length is stable and `isKilled` never fires. -/
def passOne (next : Nat → Option Nat) (oracle : SeqOracle) (stepFuel : Nat)
    (ranFirstTick : Bool) :
    List (SThread × Option SThread) → Nat → Nat →
      List (SThread × Option SThread) × Nat × Nat × Nat
  | [], ec, wc => ([], 0, ec, wc)
  | (t, _slot) :: rest, ec, wc =>
      if t.stack.length = 0 ∨ t.status = .done then
        let r := passOne next oracle stepFuel ranFirstTick rest ec wc
        ((t, some t) :: r.1, r.2)
      else
        let t1 :=
          if t.status = .yieldTick ∧ ranFirstTick = false then
            { t with status := .running }
          else t
        let s :=
          if t1.status = .running ∨ t1.status = .yield then
            let r := stepThread next oracle stepFuel ec wc t1
            ({ r.1 with warpTimerSet := false }, r.2.1, r.2.2)
          else (t1, ec, wc)
        let r := passOne next oracle stepFuel ranFirstTick rest s.2.1 s.2.2
        ((s.1, none) :: r.1,
          (if s.1.status = .running then r.2.1 + 1 else r.2.1), r.2.2.1, r.2.2.2)

/-- The outer `while` of `Sequencer.stepThreads` (lines 734-792): keep
running inner passes while threads exist, the previous pass left an
active thread, the work-time check passes, and either turbo mode is on or
no redraw is pending. `numActive` starts as any positive value, standing
for the initial `Infinity`. -/
def outerLoop (next : Nat → Option Nat) (oracle : SeqOracle) (stepFuel : Nat)
    (turboMode redrawRequested : Bool) :
    Nat → List (SThread × Option SThread) → Nat → Bool → Nat → Nat → Nat →
      List (SThread × Option SThread)
  | 0, pairs, _, _, _, _, _ => pairs
  | fuel + 1, pairs, numActive, ranFirstTick, tc, ec, wc =>
      if 0 < pairs.length ∧ 0 < numActive then
        if oracle.timeOk tc = true ∧ (turboMode = true ∨ redrawRequested = false) then
          let r := passOne next oracle stepFuel ranFirstTick pairs ec wc
          outerLoop next oracle stepFuel turboMode redrawRequested fuel
            r.1 r.2.1 true (tc + 1) r.2.2.1 r.2.2.2
        else pairs
      else pairs

/-- Update the video target found by id (the sequencer goes through
`runtime.getTargetById`); the first match is updated. -/
def updateVideoTarget : List VideoTarget → Nat → (VideoTarget → VideoTarget) →
    List VideoTarget
  | [], _, _ => []
  | t :: ts, tid, f =>
      if t.id = tid then f t :: ts else t :: updateVideoTarget ts tid f

/-- One iteration of the video-advancement loop of `Sequencer.stepThreads`
(lines 818-840): advance the frame by
`(currentStepTime / 1000) * (playbackRate / 100) * fps`,
clamping at the trim bounds and marking the play done there. -/
def videoAdvanceOne (stepTime : ℚ) (acc : List VideoTarget × List Nat)
    (targetId : Nat) : List VideoTarget × List Nat :=
  match acc.1.find? (fun t => t.id == targetId) with
  | none => acc
  | some target =>
      let frameIncrement := stepTime / 1000 * (target.playbackRate / 100) * target.fps
      let nextFrame := target.currentFrame + frameIncrement
      if nextFrame ≤ target.trimStart then
        (updateVideoTarget acc.1 targetId
          (fun t => { setCurrentFrame t t.trimStart with playing := false }),
          acc.2 ++ [targetId])
      else if nextFrame ≥ target.trimEnd then
        (updateVideoTarget acc.1 targetId
          (fun t => { setCurrentFrame t t.trimEnd with playing := false }),
          acc.2 ++ [targetId])
      else
        (updateVideoTarget acc.1 targetId (fun t => setCurrentFrame t nextFrame), acc.2)

/-- The video phase of `Sequencer.stepThreads` (lines 815-845): advance
every playing video and drop the finished ones from the playing list (the
sequencer's `videoState.playing` is the legacy array of target ids). -/
def videoAdvance (stepTime : ℚ) (targets : List VideoTarget)
    (playingIds : List Nat) : List VideoTarget × List Nat :=
  let r := playingIds.foldl (videoAdvanceOne stepTime) (targets, [])
  (r.1, playingIds.filter (fun id => !(r.2.contains id)))

/-- The runtime state `Sequencer.stepThreads` manipulates. -/
structure SeqRuntime where
  threads : List SThread
  videoTargets : List VideoTarget
  videoPlaying : List Nat
  audio : AudioState
  currentStepTime : ℚ
  turboMode : Bool
  redrawRequested : Bool

/-- `Sequencer.stepThreads()` (lines 719-885): run inner passes under the
work-time budget, compact the thread list keeping exactly the threads
whose done-slot is null, then advance the media queues; the finished
threads are returned. `passFuel` bounds the number of outer-loop
iterations and `stepFuel` the work inside one `stepThread` call; both are
only consumed, never observed, so any sufficiently large value yields the
source behaviour. -/
def stepThreads (next : Nat → Option Nat) (oracle : SeqOracle)
    (stepFuel passFuel : Nat) (rt : SeqRuntime) : SeqRuntime × List SThread :=
  let pairs := rt.threads.map (fun t => (t, (none : Option SThread)))
  let pairs :=
    outerLoop next oracle stepFuel rt.turboMode rt.redrawRequested
      passFuel pairs 1 false 0 0 0
  let threads := (pairs.filter (fun p => p.2.isNone)).map (fun p => p.1)
  let doneThreads := pairs.filterMap (fun p => p.2)
  let v := videoAdvance rt.currentStepTime rt.videoTargets rt.videoPlaying
  let audio := audioTick rt.currentStepTime rt.audio
  ({ rt with
      threads := threads
      videoTargets := v.1
      videoPlaying := v.2
      audio := audio }, doneThreads)

/-- The bounds claimed for every entry of `audioState.playing`
(spec invariant A2). -/
def AudioPlayBounds (p : AudioPlay) : Prop :=
  p.start ≤ p.playhead ∧ p.playhead ≤ p.end_ ∧ p.prevPlayhead ≤ p.playhead

/-- Strengthened per-play invariant used to prove `AudioPlayBounds`:
the plays also carry a non-negative sample rate. -/
def AudioPlayInv (p : AudioPlay) : Prop :=
  AudioPlayBounds p ∧ 0 ≤ p.sampleRate

/-- Audio targets with a non-negative sample rate whose effective full
range `[max(trimStart, 0), min(trimEnd, totalSamples - 1)]` is non-empty. -/
def TargetRangesOk (ts : List AudioTarget) : Prop :=
  ∀ t ∈ ts, 0 ≤ t.sampleRate ∧ max t.trimStart 0 ≤ min t.trimEnd (t.totalSamples - 1)

/-- The effective range requested of `_queueSound` for target `tid` is
non-empty. -/
def RangeOkFor (s : AudioState) (tid : Nat) (a b : ℚ) : Prop :=
  ∀ t ∈ s.targets, t.id = tid → max a 0 ≤ min b (t.totalSamples - 1)

/-- Validity of a single event against the state it fires in: marker-range
queueing asks for a non-empty effective range, and a tick consumes a
non-negative step time. -/
def eventOk (s : AudioState) : AudioEvent → Prop
  | .startSoundFromAToB tid a b => RangeOkFor s tid a b
  | .playSoundFromAToB tid a b => RangeOkFor s tid a b
  | .tick stepTime => 0 ≤ stepTime
  | _ => True

/-- Validity of an event trace, each event judged in the state it fires
in. -/
def eventsOk : List AudioEvent → AudioState → Prop
  | [], _ => True
  | e :: es, s => eventOk s e ∧ eventsOk es (audioStep e s)

/-- Inductive invariant behind claim C1: target ids are distinct and each
target's slot counter is non-negative and complements the number of its
non-blocking plays. -/
def CounterInv (s : AudioState) : Prop :=
  (s.targets.map (fun t => t.id)).Nodup ∧
    ∀ t ∈ s.targets,
      0 ≤ t.nonblockingSoundsAvailable ∧
      t.nonblockingSoundsAvailable =
        MAX_SIMULTANEOUS_NONBLOCKING_SOUNDS - countNonblocking s.playing t.id

/-- A thread the inner loop would mark done: empty stack or DONE status. -/
def emptyOrDone (t : SThread) : Prop :=
  t.stack.length = 0 ∨ t.status = TStatus.done

instance (t : SThread) : Decidable (emptyOrDone t) := by
  unfold emptyOrDone; infer_instance

/-- A (thread, done-slot) pair whose slot, when set, records the thread
itself observed with an empty stack or DONE status. -/
def SlotOk (p : SThread × Option SThread) : Prop :=
  ∀ u, p.2 = some u → u = p.1 ∧ emptyOrDone p.1

/-- Concrete audio target used in witnesses and counterexamples. -/
def sampleAudioTarget : AudioTarget :=
  { id := 0
    totalSamples := 100
    sampleRate := 48000
    trimStart := 0
    trimEnd := 99
    playbackRate := 100
    nonblockingSoundsAvailable := 25 }

/-- Freshly initialised audio state holding one target. -/
def sampleAudioState : AudioState :=
  { targets := [sampleAudioTarget], playing := [], nextId := 0 }

/-- The play the C2 demonstration advances: a blocking play at 50 %
playback rate, far from its end bound. -/
def ratePlay : AudioPlay :=
  { audioTargetId := 0
    sampleRate := 48000
    start := 0
    end_ := 1000000000
    playbackRate := 50
    prevPlayhead := 0
    playhead := 0
    blocking := true }

/-- Audio state holding only `ratePlay`. -/
def rateState : AudioState :=
  { targets := [], playing := [(7, ratePlay)], nextId := 8 }

/-- A single-block thread about to run: one real block on the stack, a
plain frame, RUNNING status, a live target. -/
def oneBlockThread : SThread :=
  { stack := [some 0]
    frames := [defaultFrame]
    status := .running
    warpTimerSet := false
    targetPresent := true }

/-- Oracle for the C4 run: the block is a no-op command (`execute`
returns the thread unchanged, still RUNNING), and the work-time budget is
never exhausted. -/
def noopOracle : SeqOracle :=
  { exec := fun _ t => t, timeOk := fun _ => true, warpOk := fun _ => true }

/-- Runtime holding only `oneBlockThread`, in turbo mode, with empty
media queues. -/
def oneBlockRuntime : SeqRuntime :=
  { threads := [oneBlockThread]
    videoTargets := []
    videoPlaying := []
    audio := { targets := [], playing := [], nextId := 0 }
    currentStepTime := 100 / 3
    turboMode := true
    redrawRequested := false }

/-- A video target whose `tapped` flag is set. -/
def tappedTarget : VideoTarget :=
  { id := 3
    fps := 30
    frames := 300
    currentFrame := 0
    playbackRate := 100
    trimStart := 0
    trimEnd := 299
    tapped := true
    playing := false }

/-- A video-primitive context whose stack frame already holds a play id
that is still current in the queue. -/
def sampleVideoUtil : VideoUtil :=
  { videoPlaying := [(3, { id := 11, start := 0, end_ := 299, threadTopBlock := 5, blocking := true })]
    nextId := 12
    target := tappedTarget
    status := .running
    topBlock := 5
    playingId := some 11 }

/-- An audio-primitive context whose stack frame holds a play id that has
already been removed from `audioState.playing`. -/
def sampleAudioUtil : AudioUtil :=
  { audio := sampleAudioState
    targetId := 0
    status := .running
    playingId := some 4 }

/-- Runtime used by the C10 witness: one playing video entry for target
id 3 and one for target id 5. -/
def sampleExtRuntime : ExtRuntime :=
  { videoPlaying :=
      [(3, { id := 11, start := 0, end_ := 299, threadTopBlock := 5, blocking := true }),
       (5, { id := 12, start := 1, end_ := 100, threadTopBlock := 6, blocking := false })]
    audioPlaying := []
    videoTargets := [tappedTarget]
    audioTargets := [sampleAudioTarget]
    nextId := 13 }

/-- Inductive invariant behind claim C5 (amended): target ranges are
sane and every queued play satisfies the bounds, with a non-negative
sample rate. -/
def PlayingInv (s : AudioState) : Prop :=
  TargetRangesOk s.targets ∧ ∀ p ∈ s.playing, AudioPlayInv p.2

/-- The play `playSound` queues from `sampleAudioState` on its first
entry. -/
def sampleQueuedPlay : AudioPlay :=
  { audioTargetId := 0
    sampleRate := 48000
    start := 0
    end_ := 99
    playbackRate := 100
    prevPlayhead := 0
    playhead := 0
    blocking := true }

/-- The play `playSoundFromAToB(10, 5)` queues from `sampleAudioState`:
its `start` (= playhead) exceeds its `end`. -/
def invertedPlay : AudioPlay :=
  { audioTargetId := 0
    sampleRate := 48000
    start := 10
    end_ := 5
    playbackRate := 100
    prevPlayhead := 10
    playhead := 10
    blocking := true }

/-- Claim C7: `setCurrentFrame(x)` followed by the `getCurrentFrame`
reporter returns `clamp(x, 0, frames - 1) - trimStart + 1`. -/
theorem setCurrentFrame_getCurrentFrame (t : VideoTarget) (x : ℚ) :
    getCurrentFrame (setCurrentFrame t x) = clamp x 0 (t.frames - 1) - t.trimStart + 1 :=
  rfl

/-- Claim C8, counterexample: the unified extension's `whenTapped` hat
observes `tapped = true`, returns true, but leaves the flag set instead of
clearing it. -/
theorem whenTapped_leaves_flag_set :
    (whenTapped tappedTarget).1 = true ∧ ¬ (whenTapped tappedTarget).2.tapped = false := by
  decide

/-- Claim C8, amended: only the legacy extension's `whenTapped` consumes
the flag (it reports the flag and clears it); the unified extension's
`whenTapped` reports the flag and never modifies the target. -/
theorem whenTapped_behaviour (t : VideoTarget) :
    legacyWhenTapped t = (t.tapped, { t with tapped := false }) ∧
      whenTapped t = (t.tapped, t) := by
  refine ⟨?_, rfl⟩
  cases t with
  | mk id fps frames currentFrame playbackRate trimStart trimEnd tapped playing =>
      cases tapped <;> simp [legacyWhenTapped]

/-- Claim C6: the `PROJECT_STOP_ALL` handler empties both play maps and
resets every audio target's `nonblockingSoundsAvailable` to
MAX_NONBLOCKING = 25, whatever was active before the broadcast. -/
theorem projectStopAll_spec (rt : ExtRuntime) :
    (projectStopAll rt).videoPlaying = [] ∧
      (projectStopAll rt).audioPlaying = [] ∧
      ∀ t ∈ (projectStopAll rt).audioTargets,
        t.nonblockingSoundsAvailable = MAX_SIMULTANEOUS_NONBLOCKING_SOUNDS := by
  refine ⟨rfl, rfl, ?_⟩
  intro t ht
  simp only [projectStopAll, List.mem_map] at ht
  obtain ⟨u, _, rfl⟩ := ht
  rfl

/-- Claim C2, code evaluation at the failing input: the sequencer's audio
advancement moves the playhead by `(currentStepTime / 1000) * sampleRate`
(= 48000 samples here), ignoring the `playbackRate` stored in the play;
the specified increment `(currentStepTime / 1000) * sampleRate *
(playbackRate / 100)` would be 24000. -/
theorem audioTick_ignores_play_rate :
    (audioTick 1000 rateState).playing =
      [(7, { ratePlay with prevPlayhead := 0, playhead := 48000 })] ∧
    1000 / 1000 * ratePlay.sampleRate * (ratePlay.playbackRate / 100) = 24000 ∧
    (48000 : ℚ) ≠ 24000 := by
  refine ⟨?_, by norm_num [ratePlay], by norm_num⟩
  norm_num [audioTick, rateState, advanceSound, ratePlay, List.filter_cons, beq_iff_eq]

/-- Claim C9: with heading in [0, 360), `_isPointed` accepts NORTH on the
half-width window `heading ≤ 10 ∨ heading ≥ 350` (wrapping around 0) and
SOUTH / EAST / WEST on the full-width windows `|heading - c| ≤ 20`. -/
theorem isPointed_spec (h : ℚ) (h0 : 0 ≤ h) (hlt : h < 360) :
    (isPointed h .north = true ↔ (h ≤ 10 ∨ 350 ≤ h)) ∧
      (isPointed h .south = true ↔ |h - 180| ≤ 20) ∧
      (isPointed h .east = true ↔ |h - 90| ≤ 20) ∧
      (isPointed h .west = true ↔ |h - 270| ≤ 20) := by
  refine ⟨?_, ?_, ?_, ?_⟩
  · simp only [isPointed, COMPASS_THRESHOLD, decide_eq_true_eq, ge_iff_le]
    constructor
    · rintro (h1 | h1)
      · exact Or.inl (by linarith)
      · exact Or.inr (by linarith)
    · rintro (h1 | h1)
      · exact Or.inl (by linarith)
      · exact Or.inr (by linarith)
  · simp [isPointed, COMPASS_THRESHOLD]
  · simp [isPointed, COMPASS_THRESHOLD]
  · simp [isPointed, COMPASS_THRESHOLD]

/-- Witness for `isPointed_spec` at heading 0. -/
theorem isPointed_spec_witness :
    (0 : ℚ) ≤ 0 ∧ (0 : ℚ) < 360 ∧
      ((isPointed 0 .north = true ↔ ((0 : ℚ) ≤ 10 ∨ 350 ≤ (0 : ℚ))) ∧
        (isPointed 0 .south = true ↔ |(0 : ℚ) - 180| ≤ 20) ∧
        (isPointed 0 .east = true ↔ |(0 : ℚ) - 90| ≤ 20) ∧
        (isPointed 0 .west = true ↔ |(0 : ℚ) - 270| ≤ 20)) :=
  ⟨le_refl 0, by norm_num, isPointed_spec 0 (le_refl 0) (by norm_num)⟩

/-- Looking a key up in the map after deleting a different key reads the
original map. -/
theorem lookup_filter_ne {l : List (Nat × VideoPlay)} {tid k : Nat} (hk : k ≠ tid) :
    (l.filter (fun p => !(p.1 == tid))).lookup k = l.lookup k := by
  induction l with
  | nil => rfl
  | cons p l ih =>
      obtain ⟨a, v⟩ := p
      by_cases hp : a = tid
      · subst hp
        simp [List.filter_cons, List.lookup_cons, beq_false_of_ne hk, ih]
      · by_cases hka : k = a
        · subst hka
          simp [List.filter_cons, beq_false_of_ne hp, List.lookup_cons]
        · simp [List.filter_cons, List.lookup_cons, beq_false_of_ne hp,
            beq_false_of_ne hka, ih]

/-- Deleting a key removes it from the map. -/
theorem lookup_filter_self {l : List (Nat × VideoPlay)} {tid : Nat} :
    (l.filter (fun p => !(p.1 == tid))).lookup tid = none := by
  induction l with
  | nil => rfl
  | cons p l ih =>
      obtain ⟨a, v⟩ := p
      by_cases hp : a = tid
      · subst hp
        simp [List.filter_cons, ih]
      · simp [List.filter_cons, List.lookup_cons, beq_false_of_ne hp,
          beq_false_of_ne fun h => hp h.symm, ih]

/-- Claim C10: `stopPlaying` removes at most the target's own entry from
`videoState.playing`: the target registries and the audio queue are
untouched (in particular no `currentFrame` or `playbackRate` changes),
every other key of the video queue reads as before, the target's own key
is gone afterwards, and the call is a no-op when the target has no
entry. -/
theorem stopPlaying_frame_effect (rt : ExtRuntime) (target : VideoTarget) :
    (stopPlaying rt target).videoTargets = rt.videoTargets ∧
      (stopPlaying rt target).audioTargets = rt.audioTargets ∧
      (stopPlaying rt target).audioPlaying = rt.audioPlaying ∧
      (stopPlaying rt target).videoPlaying.lookup target.id = none ∧
      (∀ k, k ≠ target.id →
        (stopPlaying rt target).videoPlaying.lookup k = rt.videoPlaying.lookup k) ∧
      (rt.videoPlaying.lookup target.id = none → stopPlaying rt target = rt) := by
  by_cases hsome : (rt.videoPlaying.lookup target.id).isSome
  · refine ⟨?_, ?_, ?_, ?_, ?_, ?_⟩
    · simp [stopPlaying, hsome]
    · simp [stopPlaying, hsome]
    · simp [stopPlaying, hsome]
    · simp [stopPlaying, hsome, lookup_filter_self]
    · intro k hk
      simp [stopPlaying, hsome, lookup_filter_ne hk]
    · intro hnone
      rw [hnone] at hsome
      simp at hsome
  · have hrt : stopPlaying rt target = rt := by simp [stopPlaying, hsome]
    refine ⟨by rw [hrt], by rw [hrt], by rw [hrt], ?_, ?_, fun _ => hrt⟩
    · rw [hrt]
      exact Option.not_isSome_iff_eq_none.mp hsome
    · intro k _
      rw [hrt]

/-- Witness for `stopPlaying_frame_effect`: deleting target 3's entry in
the sample runtime leaves target 5's entry readable. -/
theorem stopPlaying_frame_effect_witness :
    (5 : Nat) ≠ tappedTarget.id ∧
      (stopPlaying sampleExtRuntime tappedTarget).videoPlaying.lookup 5 =
        sampleExtRuntime.videoPlaying.lookup 5 :=
  ⟨by decide,
    (stopPlaying_frame_effect sampleExtRuntime tappedTarget).2.2.2.2.1 5 (by decide)⟩

/-- A stale play id makes the shared subsequent-entry branch of the
blocking video primitives return with the whole context untouched. -/
theorem videoSubsequentEntry_stale (u : VideoUtil) (pid : Nat)
    (h : videoStale u pid) : videoSubsequentEntry u pid = u := by
  unfold videoStale at h
  unfold videoSubsequentEntry
  cases hl : u.videoPlaying.lookup u.target.id with
  | none => rfl
  | some pv =>
      rw [hl] at h
      have h2 : pv.id ≠ pid := h
      simp [h2]

/-- A still-current play id makes the shared subsequent-entry branch set
YIELD_TICK and change nothing else. -/
theorem videoSubsequentEntry_current (u : VideoUtil) (pid : Nat)
    (h : ¬ videoStale u pid) :
    videoSubsequentEntry u pid = { u with status := .yieldTick } := by
  unfold videoStale at h
  unfold videoSubsequentEntry
  cases hl : u.videoPlaying.lookup u.target.id with
  | none =>
      rw [hl] at h
      exact absurd trivial h
  | some pv =>
      rw [hl] at h
      have h2 : pv.id = pid := not_not.mp h
      simp [h2]

/-- With a `playingId` on the stack frame, each blocking video primitive
reduces to the shared subsequent-entry branch. -/
theorem playEntireVideoUntilDone_subsequent (u : VideoUtil) (pid : Nat)
    (hv : u.playingId = some pid) :
    playEntireVideoUntilDone u = videoSubsequentEntry u pid := by
  unfold playEntireVideoUntilDone
  rw [hv]

/-- Subsequent-entry reduction for `playVideoFromAToB`. -/
theorem playVideoFromAToB_subsequent (a b : ℚ) (u : VideoUtil) (pid : Nat)
    (hv : u.playingId = some pid) :
    playVideoFromAToB a b u = videoSubsequentEntry u pid := by
  unfold playVideoFromAToB
  rw [hv]

/-- Subsequent-entry reduction for `playForwardUntilDone`. -/
theorem playForwardUntilDone_subsequent (u : VideoUtil) (pid : Nat)
    (hv : u.playingId = some pid) :
    playForwardUntilDone u = videoSubsequentEntry u pid := by
  unfold playForwardUntilDone
  rw [hv]

/-- Subsequent-entry reduction for `playBackwardUntilDone`. -/
theorem playBackwardUntilDone_subsequent (u : VideoUtil) (pid : Nat)
    (hv : u.playingId = some pid) :
    playBackwardUntilDone u = videoSubsequentEntry u pid := by
  unfold playBackwardUntilDone
  rw [hv]

/-- Subsequent-entry reduction for `playNFrames`. -/
theorem playNFrames_subsequent (n : ℚ) (u : VideoUtil) (pid : Nat)
    (hv : u.playingId = some pid) :
    playNFrames n u = videoSubsequentEntry u pid := by
  unfold playNFrames
  rw [hv]

/-- Claim C3: on an invocation whose stack frame already holds a
`playingId`, each blocking media primitive returns with the state (in
particular the thread status) untouched exactly when the play is gone —
the queue has no entry under the lookup key, or (for video) the stored
entry's id differs — and otherwise sets the thread status to YIELD_TICK
again. -/
theorem blocking_primitive_stale_behaviour
    (u : VideoUtil) (pid : Nat) (hv : u.playingId = some pid) (a b n : ℚ)
    (au : AudioUtil) (apid : Nat) (ha : au.playingId = some apid) :
    (videoStale u pid →
      playEntireVideoUntilDone u = u ∧
      playVideoFromAToB a b u = u ∧
      playForwardUntilDone u = u ∧
      playBackwardUntilDone u = u ∧
      playNFrames n u = u) ∧
    (¬ videoStale u pid →
      playEntireVideoUntilDone u = { u with status := .yieldTick } ∧
      playVideoFromAToB a b u = { u with status := .yieldTick } ∧
      playForwardUntilDone u = { u with status := .yieldTick } ∧
      playBackwardUntilDone u = { u with status := .yieldTick } ∧
      playNFrames n u = { u with status := .yieldTick }) ∧
    (au.audio.playing.lookup apid = none →
      playSound au = au ∧ playSoundFromAToB a b au = au) ∧
    (∀ p, au.audio.playing.lookup apid = some p →
      playSound au = { au with status := .yieldTick } ∧
      playSoundFromAToB a b au = { au with status := .yieldTick }) := by
  refine ⟨?_, ?_, ?_, ?_⟩
  · intro hstale
    have hs := videoSubsequentEntry_stale u pid hstale
    exact ⟨(playEntireVideoUntilDone_subsequent u pid hv).trans hs,
      (playVideoFromAToB_subsequent a b u pid hv).trans hs,
      (playForwardUntilDone_subsequent u pid hv).trans hs,
      (playBackwardUntilDone_subsequent u pid hv).trans hs,
      (playNFrames_subsequent n u pid hv).trans hs⟩
  · intro hcur
    have hs := videoSubsequentEntry_current u pid hcur
    exact ⟨(playEntireVideoUntilDone_subsequent u pid hv).trans hs,
      (playVideoFromAToB_subsequent a b u pid hv).trans hs,
      (playForwardUntilDone_subsequent u pid hv).trans hs,
      (playBackwardUntilDone_subsequent u pid hv).trans hs,
      (playNFrames_subsequent n u pid hv).trans hs⟩
  · intro hnone
    constructor
    · simp only [playSound, ha, hnone]
    · simp only [playSoundFromAToB, ha, hnone]
  · intro p hp
    constructor
    · simp only [playSound, ha, hp]
    · simp only [playSoundFromAToB, ha, hp]

/-- Witness for `blocking_primitive_stale_behaviour`: in the sample
contexts, `playSound` finds its play gone and completes silently, while
`playEntireVideoUntilDone` finds its play current and yields again. -/
theorem blocking_primitive_stale_behaviour_witness :
    playSound sampleAudioUtil = sampleAudioUtil ∧
      playEntireVideoUntilDone sampleVideoUtil =
        { sampleVideoUtil with status := .yieldTick } :=
  ⟨((blocking_primitive_stale_behaviour sampleVideoUtil 11 rfl 0 0 0
      sampleAudioUtil 4 rfl).2.2.1 rfl).1,
    ((blocking_primitive_stale_behaviour sampleVideoUtil 11 rfl 0 0 0
      sampleAudioUtil 4 rfl).2.1 (by decide)).1⟩

/-- An inner pass preserves the number of (thread, slot) pairs. -/
theorem passOne_length (next : Nat → Option Nat) (oracle : SeqOracle)
    (stepFuel : Nat) (rft : Bool) :
    ∀ (pairs : List (SThread × Option SThread)) (ec wc : Nat),
      (passOne next oracle stepFuel rft pairs ec wc).1.length = pairs.length := by
  intro pairs
  induction pairs with
  | nil => intro ec wc; rfl
  | cons q rest ih =>
      intro ec wc
      obtain ⟨t, slot⟩ := q
      by_cases hbad : t.stack.length = 0 ∨ t.status = TStatus.done
      · simp only [passOne, if_pos hbad, List.length_cons, ih]
      · simp only [passOne, if_neg hbad, List.length_cons, ih]

/-- After an inner pass every done-slot that is set records its own thread,
observed with an empty stack or DONE status. -/
theorem passOne_slotOk (next : Nat → Option Nat) (oracle : SeqOracle)
    (stepFuel : Nat) (rft : Bool) :
    ∀ (pairs : List (SThread × Option SThread)) (ec wc : Nat),
      ∀ p ∈ (passOne next oracle stepFuel rft pairs ec wc).1, SlotOk p := by
  intro pairs
  induction pairs with
  | nil =>
      intro ec wc p hp
      simp only [passOne, List.not_mem_nil] at hp
  | cons q rest ih =>
      intro ec wc p hp
      obtain ⟨t, slot⟩ := q
      by_cases hbad : t.stack.length = 0 ∨ t.status = TStatus.done
      · simp only [passOne, if_pos hbad, List.mem_cons] at hp
        rcases hp with rfl | hp
        · intro u hu
          cases hu
          exact ⟨rfl, hbad⟩
        · exact ih ec wc p hp
      · simp only [passOne, if_neg hbad, List.mem_cons] at hp
        rcases hp with rfl | hp
        · intro u hu
          cases hu
        · exact ih _ _ p hp

/-- A thread that already has an empty stack or DONE status when a pass
examines it gets its slot set to itself, whatever slot it had before. -/
theorem passOne_bad_mem (next : Nat → Option Nat) (oracle : SeqOracle)
    (stepFuel : Nat) (rft : Bool) :
    ∀ (pairs : List (SThread × Option SThread)) (ec wc : Nat) (t : SThread)
      (s : Option SThread),
      (t, s) ∈ pairs → emptyOrDone t →
      (t, some t) ∈ (passOne next oracle stepFuel rft pairs ec wc).1 := by
  intro pairs
  induction pairs with
  | nil =>
      intro ec wc t s hmem _
      simp at hmem
  | cons q rest ih =>
      intro ec wc t s hmem hbad
      obtain ⟨t0, s0⟩ := q
      rcases List.mem_cons.mp hmem with heq | htail
      · injection heq with h1 h2
        subst h1
        have hcond : t.stack.length = 0 ∨ t.status = TStatus.done := hbad
        simp only [passOne, if_pos hcond]
        exact List.mem_cons_self _ _
      · by_cases hbad0 : t0.stack.length = 0 ∨ t0.status = TStatus.done
        · simp only [passOne, if_pos hbad0]
          exact List.mem_cons_of_mem _ (ih _ _ _ _ htail hbad)
        · simp only [passOne, if_neg hbad0]
          exact List.mem_cons_of_mem _ (ih _ _ _ _ htail hbad)

/-- The outer loop keeps every done-slot sound: slots are only ever set by
a pass observing an empty stack or DONE status. -/
theorem outerLoop_slotOk (next : Nat → Option Nat) (oracle : SeqOracle)
    (stepFuel : Nat) (tm rr : Bool) :
    ∀ (fuel : Nat) (pairs : List (SThread × Option SThread))
      (numActive : Nat) (rft : Bool) (tc ec wc : Nat),
      (∀ p ∈ pairs, SlotOk p) →
      ∀ p ∈ outerLoop next oracle stepFuel tm rr fuel pairs numActive rft tc ec wc,
        SlotOk p := by
  intro fuel
  induction fuel with
  | zero =>
      intro pairs numActive rft tc ec wc h p hp
      exact h p hp
  | succ k ih =>
      intro pairs numActive rft tc ec wc h p hp
      by_cases h1 : 0 < pairs.length ∧ 0 < numActive
      · by_cases h2 : oracle.timeOk tc = true ∧ (tm = true ∨ rr = false)
        · simp only [outerLoop, if_pos h1, if_pos h2] at hp
          exact ih _ _ _ _ _ _ (fun q hq => passOne_slotOk next oracle stepFuel rft pairs ec wc q hq) p hp
        · simp only [outerLoop, if_pos h1, if_neg h2] at hp
          exact h p hp
      · simp only [outerLoop, if_neg h1] at hp
        exact h p hp

/-- A pair whose slot already records its (empty-stack or DONE) thread
survives every further pass of the outer loop. -/
theorem outerLoop_bad_kept (next : Nat → Option Nat) (oracle : SeqOracle)
    (stepFuel : Nat) (tm rr : Bool) :
    ∀ (fuel : Nat) (pairs : List (SThread × Option SThread))
      (numActive : Nat) (rft : Bool) (tc ec wc : Nat) (t : SThread),
      emptyOrDone t → (t, some t) ∈ pairs →
      (t, some t) ∈ outerLoop next oracle stepFuel tm rr fuel pairs numActive rft tc ec wc := by
  intro fuel
  induction fuel with
  | zero =>
      intro pairs numActive rft tc ec wc t _ hmem
      exact hmem
  | succ k ih =>
      intro pairs numActive rft tc ec wc t hbad hmem
      by_cases h1 : 0 < pairs.length ∧ 0 < numActive
      · by_cases h2 : oracle.timeOk tc = true ∧ (tm = true ∨ rr = false)
        · simp only [outerLoop, if_pos h1, if_pos h2]
          exact ih _ _ _ _ _ _ t hbad
            (passOne_bad_mem next oracle stepFuel rft pairs ec wc t (some t) hmem hbad)
        · simp only [outerLoop, if_pos h1, if_neg h2]
          exact hmem
      · simp only [outerLoop, if_neg h1]
        exact hmem

/-- The outer loop preserves the number of pairs. -/
theorem outerLoop_length (next : Nat → Option Nat) (oracle : SeqOracle)
    (stepFuel : Nat) (tm rr : Bool) :
    ∀ (fuel : Nat) (pairs : List (SThread × Option SThread))
      (numActive : Nat) (rft : Bool) (tc ec wc : Nat),
      (outerLoop next oracle stepFuel tm rr fuel pairs numActive rft tc ec wc).length
        = pairs.length := by
  intro fuel
  induction fuel with
  | zero => intro pairs numActive rft tc ec wc; rfl
  | succ k ih =>
      intro pairs numActive rft tc ec wc
      by_cases h1 : 0 < pairs.length ∧ 0 < numActive
      · by_cases h2 : oracle.timeOk tc = true ∧ (tm = true ∨ rr = false)
        · simp only [outerLoop, if_pos h1, if_pos h2]
          rw [ih]
          exact passOne_length next oracle stepFuel rft pairs ec wc
        · simp only [outerLoop, if_pos h1, if_neg h2]
      · simp only [outerLoop, if_neg h1]

/-- The compaction partitions the pairs: retained threads and reported
done threads together account for every pair. -/
theorem filter_partition_length :
    ∀ (pairs : List (SThread × Option SThread)),
      (pairs.filter (fun p => p.2.isNone)).length
        + (pairs.filterMap (fun p => p.2)).length = pairs.length := by
  intro pairs
  induction pairs with
  | nil => rfl
  | cons q rest ih =>
      obtain ⟨t, slot⟩ := q
      cases slot with
      | none =>
          simp [List.filter_cons, List.filterMap_cons]
          omega
      | some u =>
          simp [List.filter_cons, List.filterMap_cons]
          omega

/-- Claim C4, amended: after `stepThreads`, every thread in the returned
done list was observed with an empty stack or DONE status; every thread
that already had an empty stack or DONE status when the call began is
reported done (and, by the conservation equation, removed from
`runtime.threads`); retained plus done threads account for the whole
input. A thread that first reaches empty-stack / DONE during the final
inner pass is not covered: it may stay in `runtime.threads` until the
next call (see the counterexample). -/
theorem stepThreads_finished_threads (next : Nat → Option Nat)
    (oracle : SeqOracle) (stepFuel passFuel : Nat) (rt : SeqRuntime)
    (hfuel : 1 ≤ passFuel) (htime : oracle.timeOk 0 = true)
    (hmode : rt.turboMode = true ∨ rt.redrawRequested = false) :
    (∀ u ∈ (stepThreads next oracle stepFuel passFuel rt).2,
        u.stack.length = 0 ∨ u.status = TStatus.done) ∧
    (∀ t ∈ rt.threads, (t.stack.length = 0 ∨ t.status = TStatus.done) →
        t ∈ (stepThreads next oracle stepFuel passFuel rt).2) ∧
    (stepThreads next oracle stepFuel passFuel rt).1.threads.length
        + (stepThreads next oracle stepFuel passFuel rt).2.length
      = rt.threads.length := by
  have hres2 : (stepThreads next oracle stepFuel passFuel rt).2
      = (outerLoop next oracle stepFuel rt.turboMode rt.redrawRequested passFuel
          (rt.threads.map (fun t => (t, (none : Option SThread)))) 1 false 0 0 0).filterMap
          (fun p => p.2) := rfl
  have hres1 : (stepThreads next oracle stepFuel passFuel rt).1.threads
      = ((outerLoop next oracle stepFuel rt.turboMode rt.redrawRequested passFuel
          (rt.threads.map (fun t => (t, (none : Option SThread)))) 1 false 0 0 0).filter
          (fun p => p.2.isNone)).map (fun p => p.1) := rfl
  have hinit : ∀ p ∈ rt.threads.map (fun t => (t, (none : Option SThread))), SlotOk p := by
    intro p hp
    obtain ⟨t, _, rfl⟩ := List.mem_map.mp hp
    intro u hu
    cases hu
  have hSlot := outerLoop_slotOk next oracle stepFuel rt.turboMode rt.redrawRequested
    passFuel (rt.threads.map (fun t => (t, (none : Option SThread)))) 1 false 0 0 0 hinit
  refine ⟨?_, ?_, ?_⟩
  · intro u hu
    rw [hres2] at hu
    obtain ⟨p, hpmem, hpu⟩ := List.mem_filterMap.mp hu
    obtain ⟨h1, h2⟩ := hSlot p hpmem u hpu
    exact h1 ▸ h2
  · intro t ht hbad
    obtain ⟨k, rfl⟩ : ∃ k, passFuel = k + 1 := ⟨passFuel - 1, by omega⟩
    have hmem0 : (t, (none : Option SThread))
        ∈ rt.threads.map (fun t => (t, (none : Option SThread))) :=
      List.mem_map_of_mem _ ht
    have hlen : 0 < (rt.threads.map (fun t => (t, (none : Option SThread)))).length :=
      List.length_pos.mpr (List.ne_nil_of_mem hmem0)
    have h1 : 0 < (rt.threads.map (fun t => (t, (none : Option SThread)))).length ∧
        0 < 1 := ⟨hlen, Nat.one_pos⟩
    have h2 : oracle.timeOk 0 = true ∧
        (rt.turboMode = true ∨ rt.redrawRequested = false) := ⟨htime, hmode⟩
    rw [hres2]
    have hstep :
        outerLoop next oracle stepFuel rt.turboMode rt.redrawRequested (k + 1)
          (rt.threads.map (fun t => (t, (none : Option SThread)))) 1 false 0 0 0
        = outerLoop next oracle stepFuel rt.turboMode rt.redrawRequested k
            (passOne next oracle stepFuel false
              (rt.threads.map (fun t => (t, (none : Option SThread)))) 0 0).1
            (passOne next oracle stepFuel false
              (rt.threads.map (fun t => (t, (none : Option SThread)))) 0 0).2.1
            true 1
            (passOne next oracle stepFuel false
              (rt.threads.map (fun t => (t, (none : Option SThread)))) 0 0).2.2.1
            (passOne next oracle stepFuel false
              (rt.threads.map (fun t => (t, (none : Option SThread)))) 0 0).2.2.2 := by
      simp only [outerLoop, if_pos h1, if_pos h2]
    rw [hstep]
    have hpass := passOne_bad_mem next oracle stepFuel false
      (rt.threads.map (fun t => (t, (none : Option SThread)))) 0 0 t none hmem0 hbad
    refine List.mem_filterMap.mpr ⟨(t, some t), ?_, rfl⟩
    exact outerLoop_bad_kept next oracle stepFuel rt.turboMode rt.redrawRequested
      k _ _ true 1 _ _ t hbad hpass
  · rw [hres1, hres2, List.length_map]
    have hfl := outerLoop_length next oracle stepFuel rt.turboMode rt.redrawRequested
      passFuel (rt.threads.map (fun t => (t, (none : Option SThread)))) 1 false 0 0 0
    have hpart := filter_partition_length
      (outerLoop next oracle stepFuel rt.turboMode rt.redrawRequested passFuel
        (rt.threads.map (fun t => (t, (none : Option SThread)))) 1 false 0 0 0)
    rw [hfl, List.length_map] at hpart
    exact hpart

/-- Witness for `stepThreads_finished_threads` on the concrete one-thread
runtime. -/
theorem stepThreads_finished_threads_witness :
    (stepThreads (fun _ => none) noopOracle 5 3 oneBlockRuntime).1.threads.length
        + (stepThreads (fun _ => none) noopOracle 5 3 oneBlockRuntime).2.length
      = oneBlockRuntime.threads.length :=
  (stepThreads_finished_threads (fun _ => none) noopOracle 5 3 oneBlockRuntime
    (by norm_num) rfl (Or.inl rfl)).2.2

/-- Claim C4, counterexample: the one-block thread finishes (empty stack,
DONE status) during the first inner pass; the pass leaves its done-slot
null, the outer loop exits because no thread is active, and the finished
thread is retained in `runtime.threads` — violating the claim that every
retained thread has a non-empty stack and a status other than DONE. -/
theorem stepThreads_retains_finished_thread :
    ((stepThreads (fun _ => none) noopOracle 5 3 oneBlockRuntime).1.threads.all
      (fun t => decide (0 < t.stack.length ∧ t.status ≠ TStatus.done))) = false
      ∧ (stepThreads (fun _ => none) noopOracle 5 3 oneBlockRuntime).1.threads ≠ [] := by
  constructor
  · rfl
  · decide

/-- Appending plays adds their non-blocking counts. -/
theorem countNonblocking_append (l1 l2 : List (Nat × AudioPlay)) (tid : Nat) :
    countNonblocking (l1 ++ l2) tid
      = countNonblocking l1 tid + countNonblocking l2 tid := by
  simp [countNonblocking, List.filter_append]

/-- A play counted by `countNonblocking` contributes one. -/
theorem countNonblocking_cons_pos {p : Nat × AudioPlay} {L : List (Nat × AudioPlay)}
    {tid : Nat} (h : (!p.2.blocking && p.2.audioTargetId == tid) = true) :
    countNonblocking (p :: L) tid = countNonblocking L tid + 1 := by
  simp [countNonblocking, List.filter_cons, h]

/-- A play not counted by `countNonblocking` contributes nothing. -/
theorem countNonblocking_cons_neg {p : Nat × AudioPlay} {L : List (Nat × AudioPlay)}
    {tid : Nat} (h : ¬ (!p.2.blocking && p.2.audioTargetId == tid) = true) :
    countNonblocking (p :: L) tid = countNonblocking L tid := by
  simp only [countNonblocking, List.filter_cons, if_neg h]

/-- Splitting the plays by the removal condition splits the non-blocking
count. -/
theorem countNonblocking_filter_partition (l : List (Nat × AudioPlay)) (tid : Nat) :
    countNonblocking l tid
      = countNonblocking (l.filter (fun p => p.2.playhead == p.2.end_)) tid
        + countNonblocking (l.filter (fun p => !(p.2.playhead == p.2.end_))) tid := by
  induction l with
  | nil => rfl
  | cons p l ih =>
      by_cases he : (p.2.playhead == p.2.end_) = true
      · have h1 : (p :: l).filter (fun p => p.2.playhead == p.2.end_)
            = p :: l.filter (fun p => p.2.playhead == p.2.end_) := by
          simp [List.filter_cons, he]
        have h2 : (p :: l).filter (fun p => !(p.2.playhead == p.2.end_))
            = l.filter (fun p => !(p.2.playhead == p.2.end_)) := by
          simp [List.filter_cons, he]
        rw [h1, h2]
        by_cases hnb : (!p.2.blocking && p.2.audioTargetId == tid) = true
        · rw [countNonblocking_cons_pos hnb, countNonblocking_cons_pos hnb, ih]
          omega
        · rw [countNonblocking_cons_neg hnb, countNonblocking_cons_neg hnb, ih]
      · have h1 : (p :: l).filter (fun p => p.2.playhead == p.2.end_)
            = l.filter (fun p => p.2.playhead == p.2.end_) := by
          simp [List.filter_cons, he]
        have h2 : (p :: l).filter (fun p => !(p.2.playhead == p.2.end_))
            = p :: l.filter (fun p => !(p.2.playhead == p.2.end_)) := by
          simp [List.filter_cons, he]
        rw [h1, h2]
        by_cases hnb : (!p.2.blocking && p.2.audioTargetId == tid) = true
        · rw [countNonblocking_cons_pos hnb, countNonblocking_cons_pos hnb, ih]
          omega
        · rw [countNonblocking_cons_neg hnb, countNonblocking_cons_neg hnb, ih]

/-- Advancing playheads does not change the non-blocking counts. -/
theorem countNonblocking_map_advance (stepTime : ℚ) (l : List (Nat × AudioPlay))
    (tid : Nat) :
    countNonblocking (l.map (fun p => (p.1, advanceSound stepTime p.2))) tid
      = countNonblocking l tid := by
  induction l with
  | nil => rfl
  | cons p l ih =>
      rw [List.map_cons]
      by_cases hnb : (!p.2.blocking && p.2.audioTargetId == tid) = true
      · rw [countNonblocking_cons_pos hnb, countNonblocking_cons_pos (p := (p.1, advanceSound stepTime p.2)) hnb, ih]
      · rw [countNonblocking_cons_neg hnb, countNonblocking_cons_neg (p := (p.1, advanceSound stepTime p.2)) hnb, ih]

/-- With distinct ids, increment of a slot counter is a pointwise map. -/
theorem incrementAvailable_eq_map (ts : List AudioTarget) (tid : Nat)
    (hnd : (ts.map (fun t => t.id)).Nodup) :
    incrementAvailable ts tid
      = ts.map (fun t =>
          if t.id = tid then
            { t with nonblockingSoundsAvailable := t.nonblockingSoundsAvailable + 1 }
          else t) := by
  induction ts with
  | nil => rfl
  | cons t ts ih =>
      simp only [List.map_cons, List.nodup_cons] at hnd
      obtain ⟨hnotin, hnd⟩ := hnd
      by_cases h : t.id = tid
      · simp only [incrementAvailable, if_pos h, List.map_cons]
        congr 1
        have hall : ∀ u ∈ ts,
            (if u.id = tid then
              { u with nonblockingSoundsAvailable := u.nonblockingSoundsAvailable + 1 }
            else u) = u := by
          intro u hu
          rw [if_neg]
          intro hut
          exact hnotin (by
            rw [h, ← hut]
            exact List.mem_map_of_mem (fun t => t.id) hu)
        rw [List.map_congr_left hall]
        exact (List.map_id' ts).symm
      · simp only [incrementAvailable, if_neg h, List.map_cons, ih hnd]

/-- With distinct ids, decrement of a slot counter is a pointwise map. -/
theorem decrementAvailable_eq_map (ts : List AudioTarget) (tid : Nat)
    (hnd : (ts.map (fun t => t.id)).Nodup) :
    decrementAvailable ts tid
      = ts.map (fun t =>
          if t.id = tid then
            { t with nonblockingSoundsAvailable := t.nonblockingSoundsAvailable - 1 }
          else t) := by
  induction ts with
  | nil => rfl
  | cons t ts ih =>
      simp only [List.map_cons, List.nodup_cons] at hnd
      obtain ⟨hnotin, hnd⟩ := hnd
      by_cases h : t.id = tid
      · simp only [decrementAvailable, if_pos h, List.map_cons]
        congr 1
        have hall : ∀ u ∈ ts,
            (if u.id = tid then
              { u with nonblockingSoundsAvailable := u.nonblockingSoundsAvailable - 1 }
            else u) = u := by
          intro u hu
          rw [if_neg]
          intro hut
          exact hnotin (by
            rw [h, ← hut]
            exact List.mem_map_of_mem (fun t => t.id) hu)
        rw [List.map_congr_left hall]
        exact (List.map_id' ts).symm
      · simp only [decrementAvailable, if_neg h, List.map_cons, ih hnd]

/-- Adjusting slot counters (by any per-target amount) keeps the id
list. -/
theorem ids_after_counter_map (ts : List AudioTarget) (f : AudioTarget → ℤ) :
    (ts.map (fun t => { t with nonblockingSoundsAvailable := f t })).map
      (fun t => t.id) = ts.map (fun t => t.id) := by
  rw [List.map_map]
  rfl

/-- Conditionally adjusting slot counters keeps the id list. -/
theorem ids_after_adjust (ts : List AudioTarget) (tid : Nat) (d : ℤ) :
    (ts.map (fun t =>
        if t.id = tid then
          { t with nonblockingSoundsAvailable := t.nonblockingSoundsAvailable + d }
        else t)).map (fun t => t.id) = ts.map (fun t => t.id) := by
  rw [List.map_map]
  apply List.map_congr_left
  intro t _
  by_cases h : t.id = tid <;> simp [h]

/-- Mapping an id-preserving function over targets keeps the id list. -/
theorem ids_after_pointwise (ts : List AudioTarget) (f : AudioTarget → AudioTarget)
    (hf : ∀ t, (f t).id = t.id) :
    (ts.map f).map (fun t => t.id) = ts.map (fun t => t.id) := by
  rw [List.map_map]
  apply List.map_congr_left
  intro t _
  exact hf t

/-- The removal loop of the audio tick — one `incrementAvailable` per
removed non-blocking play — adds each target's removed-play count to its
slot counter (given distinct target ids). -/
theorem foldl_removeIncrement (L : List (Nat × AudioPlay)) :
    ∀ (ts : List AudioTarget), (ts.map (fun t => t.id)).Nodup →
      L.foldl (fun ts p => if p.2.blocking then ts
          else incrementAvailable ts p.2.audioTargetId) ts
        = ts.map (fun t => { t with nonblockingSoundsAvailable :=
            t.nonblockingSoundsAvailable + (countNonblocking L t.id : ℤ) }) := by
  induction L with
  | nil =>
      intro ts _
      rw [List.foldl_nil]
      have hall : ∀ t ∈ ts, ({ t with nonblockingSoundsAvailable :=
          t.nonblockingSoundsAvailable
            + (countNonblocking ([] : List (Nat × AudioPlay)) t.id : ℤ) }) = t := by
        intro t _
        have h0 : countNonblocking ([] : List (Nat × AudioPlay)) t.id = 0 := rfl
        rw [h0]
        cases t
        simp
      exact ((List.map_congr_left hall).trans (List.map_id' ts)).symm
  | cons p L ih =>
      intro ts hnd
      rw [List.foldl_cons]
      by_cases hb : p.2.blocking
      · rw [if_pos hb, ih ts hnd]
        apply List.map_congr_left
        intro t _
        have hcnt : countNonblocking (p :: L) t.id = countNonblocking L t.id := by
          apply countNonblocking_cons_neg
          simp [hb]
        rw [hcnt]
      · rw [if_neg hb, incrementAvailable_eq_map ts _ hnd]
        have hnd2 : ((ts.map (fun t =>
            if t.id = p.2.audioTargetId then
              { t with nonblockingSoundsAvailable := t.nonblockingSoundsAvailable + 1 }
            else t)).map (fun t => t.id)).Nodup := by
          rw [ids_after_pointwise ts _ (by
            intro u
            by_cases h : u.id = p.2.audioTargetId <;> simp [h])]
          exact hnd
        rw [ih _ hnd2, List.map_map]
        apply List.map_congr_left
        intro t _
        simp only [Function.comp_apply]
        by_cases h : t.id = p.2.audioTargetId
        · have hcnt : countNonblocking (p :: L) t.id = countNonblocking L t.id + 1 := by
            apply countNonblocking_cons_pos
            simp [hb, h]
          rw [if_pos h, hcnt]
          cases t
          simp only []
          congr 1
          push_cast
          ring
        · have hcnt : countNonblocking (p :: L) t.id = countNonblocking L t.id := by
            apply countNonblocking_cons_neg
            simp only [hb, Bool.not_false, Bool.true_and, beq_iff_eq]
            exact fun hh => h hh.symm
          rw [if_neg h, hcnt]

/-- A successful `getTargetById` returns a registry member carrying the
requested id. -/
theorem getAudioTargetById_mem {ts : List AudioTarget} {tid : Nat} {t : AudioTarget}
    (h : getAudioTargetById ts tid = some t) : t ∈ ts ∧ t.id = tid := by
  unfold getAudioTargetById at h
  refine ⟨List.mem_of_find?_eq_some h, ?_⟩
  have := List.find?_some h
  simpa using this

/-- The effect of `_queueSound` on a target's non-blocking count: one more
play when the queued play is non-blocking and owned by that target. -/
theorem countNonblocking_queueSound (s : AudioState) (t : AudioTarget)
    (a b r : ℚ) (bl : Bool) (tid : Nat) :
    countNonblocking (queueSound s t a b r bl).playing tid
      = countNonblocking s.playing tid
        + (if bl = false ∧ t.id = tid then 1 else 0) := by
  simp only [queueSound]
  rw [countNonblocking_append]
  congr 1
  by_cases h1 : bl = false
  · by_cases h2 : t.id = tid
    · rw [if_pos ⟨h1, h2⟩, countNonblocking_cons_pos (by simp [h1, h2])]
      rfl
    · rw [if_neg (fun hc => h2 hc.2),
        countNonblocking_cons_neg (by simp [h1, h2])]
      rfl
  · have h1t : bl = true := by revert h1; cases bl <;> simp
    rw [if_neg (fun hc => h1 hc.1),
      countNonblocking_cons_neg (by simp [h1t])]
    rfl

/-- Queueing a non-blocking play for target `t` and decrementing `t`'s
slot counter preserves the counter invariant. -/
theorem counterInv_startHelper (s : AudioState) (t : AudioTarget) (a b : ℚ)
    (hmem : t ∈ s.targets) (hpos : 0 < t.nonblockingSoundsAvailable)
    (h : CounterInv s) :
    CounterInv { queueSound s t a b t.playbackRate false with
        targets :=
          decrementAvailable (queueSound s t a b t.playbackRate false).targets t.id } := by
  obtain ⟨hnd, hall⟩ := h
  constructor
  · show ((decrementAvailable s.targets t.id).map (fun t => t.id)).Nodup
    rw [decrementAvailable_eq_map s.targets t.id hnd,
      ids_after_pointwise s.targets _ (by
        intro u
        by_cases hu : u.id = t.id <;> simp [hu])]
    exact hnd
  · intro t' ht'
    have ht'2 : t' ∈ decrementAvailable s.targets t.id := ht'
    rw [decrementAvailable_eq_map s.targets t.id hnd] at ht'2
    obtain ⟨u, hu, rfl⟩ := List.mem_map.mp ht'2
    obtain ⟨hu0, hueq⟩ := hall u hu
    by_cases hut : u.id = t.id
    · have hut2 : u = t :=
        List.inj_on_of_nodup_map hnd hu hmem hut
      rw [if_pos hut]
      constructor
      · show (0 : ℤ) ≤ u.nonblockingSoundsAvailable - 1
        rw [hut2]
        omega
      · show u.nonblockingSoundsAvailable - 1
          = MAX_SIMULTANEOUS_NONBLOCKING_SOUNDS
            - countNonblocking (queueSound s t a b t.playbackRate false).playing u.id
        rw [countNonblocking_queueSound, if_pos ⟨rfl, hut.symm⟩]
        rw [hueq]
        push_cast
        ring
    · rw [if_neg hut]
      refine ⟨hu0, ?_⟩
      show u.nonblockingSoundsAvailable
          = MAX_SIMULTANEOUS_NONBLOCKING_SOUNDS
            - countNonblocking (queueSound s t a b t.playbackRate false).playing u.id
      rw [countNonblocking_queueSound, if_neg (fun hc => hut hc.2.symm)]
      rw [hueq]
      push_cast
      ring

/-- `startSound` preserves the counter invariant. -/
theorem counterInv_startSound (tid : Nat) (s : AudioState) (h : CounterInv s) :
    CounterInv (startSound tid s) := by
  unfold startSound
  cases hf : getAudioTargetById s.targets tid with
  | none => exact h
  | some t =>
      obtain ⟨hmem, htid⟩ := getAudioTargetById_mem hf
      show CounterInv (if 0 < t.nonblockingSoundsAvailable then
          { queueSound s t t.trimStart t.trimEnd t.playbackRate false with
              targets := decrementAvailable
                (queueSound s t t.trimStart t.trimEnd t.playbackRate false).targets tid }
        else s)
      by_cases hpos : 0 < t.nonblockingSoundsAvailable
      · rw [if_pos hpos]
        rw [show tid = t.id from htid.symm]
        exact counterInv_startHelper s t t.trimStart t.trimEnd hmem hpos h
      · rw [if_neg hpos]
        exact h

/-- `startSoundFromAToB` preserves the counter invariant. -/
theorem counterInv_startSoundFromAToB (tid : Nat) (a b : ℚ) (s : AudioState)
    (h : CounterInv s) : CounterInv (startSoundFromAToB tid a b s) := by
  unfold startSoundFromAToB
  cases hf : getAudioTargetById s.targets tid with
  | none => exact h
  | some t =>
      obtain ⟨hmem, htid⟩ := getAudioTargetById_mem hf
      show CounterInv (if 0 < t.nonblockingSoundsAvailable then
          { queueSound s t a b t.playbackRate false with
              targets := decrementAvailable
                (queueSound s t a b t.playbackRate false).targets tid }
        else s)
      by_cases hpos : 0 < t.nonblockingSoundsAvailable
      · rw [if_pos hpos]
        rw [show tid = t.id from htid.symm]
        exact counterInv_startHelper s t a b hmem hpos h
      · rw [if_neg hpos]
        exact h

/-- Queueing a blocking play leaves every counter and every non-blocking
count unchanged. -/
theorem counterInv_playSoundQueue (tid : Nat) (s : AudioState) (h : CounterInv s) :
    CounterInv (playSoundQueue tid s) := by
  unfold playSoundQueue
  cases hf : getAudioTargetById s.targets tid with
  | none => exact h
  | some t =>
      obtain ⟨hnd, hall⟩ := h
      show CounterInv (queueSound s t t.trimStart t.trimEnd t.playbackRate true)
      refine ⟨hnd, ?_⟩
      intro t' ht'
      obtain ⟨h0, heq⟩ := hall t' ht'
      refine ⟨h0, ?_⟩
      rw [countNonblocking_queueSound, if_neg (fun hc => by cases hc.1)]
      rw [heq]
      push_cast
      ring

/-- Queueing a blocking play over a marker range preserves the counter
invariant. -/
theorem counterInv_playSoundFromAToBQueue (tid : Nat) (a b : ℚ) (s : AudioState)
    (h : CounterInv s) : CounterInv (playSoundFromAToBQueue tid a b s) := by
  unfold playSoundFromAToBQueue
  cases hf : getAudioTargetById s.targets tid with
  | none => exact h
  | some t =>
      obtain ⟨hnd, hall⟩ := h
      show CounterInv (queueSound s t a b t.playbackRate true)
      refine ⟨hnd, ?_⟩
      intro t' ht'
      obtain ⟨h0, heq⟩ := hall t' ht'
      refine ⟨h0, ?_⟩
      rw [countNonblocking_queueSound, if_neg (fun hc => by cases hc.1)]
      rw [heq]
      push_cast
      ring

/-- The audio tick — advancing the survivors and giving each removed
non-blocking play's slot back to its owner — preserves the counter
invariant. -/
theorem counterInv_audioTick (stepTime : ℚ) (s : AudioState) (h : CounterInv s) :
    CounterInv (audioTick stepTime s) := by
  obtain ⟨hnd, hall⟩ := h
  simp only [audioTick]
  constructor
  · rw [foldl_removeIncrement _ s.targets hnd, ids_after_counter_map]
    exact hnd
  · intro t' ht'
    rw [foldl_removeIncrement _ s.targets hnd] at ht'
    obtain ⟨u, hu, rfl⟩ := List.mem_map.mp ht'
    obtain ⟨hu0, hueq⟩ := hall u hu
    constructor
    · show (0 : ℤ) ≤ u.nonblockingSoundsAvailable
        + (countNonblocking (s.playing.filter (fun p => p.2.playhead == p.2.end_)) u.id : ℤ)
      omega
    · show u.nonblockingSoundsAvailable
          + (countNonblocking (s.playing.filter (fun p => p.2.playhead == p.2.end_)) u.id : ℤ)
        = MAX_SIMULTANEOUS_NONBLOCKING_SOUNDS
          - countNonblocking ((s.playing.filter
              (fun p => !(p.2.playhead == p.2.end_))).map
              (fun p => (p.1, advanceSound stepTime p.2))) u.id
      rw [countNonblocking_map_advance]
      have hpart := countNonblocking_filter_partition s.playing u.id
      rw [hueq, hpart]
      push_cast
      ring

/-- `PROJECT_STOP_ALL` restores the counter invariant outright. -/
theorem counterInv_stopAllAudio (s : AudioState) (h : CounterInv s) :
    CounterInv (stopAllAudio s) := by
  obtain ⟨hnd, _⟩ := h
  simp only [stopAllAudio]
  constructor
  · rw [ids_after_counter_map]
    exact hnd
  · intro t' ht'
    obtain ⟨u, _, rfl⟩ := List.mem_map.mp ht'
    constructor
    · show (0 : ℤ) ≤ MAX_SIMULTANEOUS_NONBLOCKING_SOUNDS
      norm_num [MAX_SIMULTANEOUS_NONBLOCKING_SOUNDS]
    · show MAX_SIMULTANEOUS_NONBLOCKING_SOUNDS
        = MAX_SIMULTANEOUS_NONBLOCKING_SOUNDS - countNonblocking [] u.id
      rfl

/-- Every audio event preserves the counter invariant. -/
theorem counterInv_step (e : AudioEvent) (s : AudioState) (h : CounterInv s) :
    CounterInv (audioStep e s) := by
  cases e with
  | startSound tid => exact counterInv_startSound tid s h
  | startSoundFromAToB tid a b => exact counterInv_startSoundFromAToB tid a b s h
  | playSound tid => exact counterInv_playSoundQueue tid s h
  | playSoundFromAToB tid a b => exact counterInv_playSoundFromAToBQueue tid a b s h
  | tick stepTime => exact counterInv_audioTick stepTime s h
  | stopAll => exact counterInv_stopAllAudio s h

/-- Running any event trace preserves the counter invariant. -/
theorem counterInv_run (events : List AudioEvent) :
    ∀ (s : AudioState), CounterInv s → CounterInv (runAudio events s) := by
  induction events with
  | nil => intro s h; exact h
  | cons e es ih =>
      intro s h
      exact ih (audioStep e s) (counterInv_step e s h)

/-- Claim C1: from any freshly initialised audio state, across
startSound / startSoundFromAToB queueing (guarded by the counter and
decrementing it), blocking queueing, per-tick removal of finished
non-blocking plays (incrementing it), and PROJECT_STOP_ALL (resetting
it), every audio target's `nonblockingSoundsAvailable` stays within
[0, 25] and equals 25 minus the number of its non-blocking plays in
`audioState.playing`. -/
theorem nonblocking_counter_invariant (s0 : AudioState) (h : AudioInit s0)
    (events : List AudioEvent) :
    ∀ t ∈ (runAudio events s0).targets,
      0 ≤ t.nonblockingSoundsAvailable ∧
      t.nonblockingSoundsAvailable ≤ MAX_SIMULTANEOUS_NONBLOCKING_SOUNDS ∧
      t.nonblockingSoundsAvailable
        = MAX_SIMULTANEOUS_NONBLOCKING_SOUNDS
          - countNonblocking (runAudio events s0).playing t.id := by
  obtain ⟨hplay, hnd, hinit⟩ := h
  have hinv0 : CounterInv s0 := by
    refine ⟨hnd, ?_⟩
    intro t ht
    rw [hplay]
    refine ⟨?_, ?_⟩
    · rw [hinit t ht]
      norm_num [MAX_SIMULTANEOUS_NONBLOCKING_SOUNDS]
    · rw [hinit t ht]
      rfl
  obtain ⟨_, hall⟩ := counterInv_run events s0 hinv0
  intro t ht
  obtain ⟨h0, heq⟩ := hall t ht
  refine ⟨h0, ?_, heq⟩
  rw [heq]
  have : (0 : ℤ) ≤ (countNonblocking (runAudio events s0).playing t.id : ℤ) := by positivity
  omega

/-- Witness for `nonblocking_counter_invariant` on the one-target sample
state with the empty trace. -/
theorem nonblocking_counter_invariant_witness :
    0 ≤ sampleAudioTarget.nonblockingSoundsAvailable ∧
      sampleAudioTarget.nonblockingSoundsAvailable ≤ MAX_SIMULTANEOUS_NONBLOCKING_SOUNDS ∧
      sampleAudioTarget.nonblockingSoundsAvailable
        = MAX_SIMULTANEOUS_NONBLOCKING_SOUNDS
          - countNonblocking (runAudio [] sampleAudioState).playing sampleAudioTarget.id :=
  nonblocking_counter_invariant sampleAudioState
    ⟨rfl, by simp [sampleAudioState], by
      intro t ht
      simp only [sampleAudioState, List.mem_singleton] at ht
      rw [ht]
      rfl⟩
    [] sampleAudioTarget (by
      show sampleAudioTarget ∈ sampleAudioState.targets
      simp [sampleAudioState])

/-- Decrementing a slot counter never changes sample rates or trim
ranges. -/
theorem targetRangesOk_decrement (ts : List AudioTarget) (tid : Nat)
    (h : TargetRangesOk ts) : TargetRangesOk (decrementAvailable ts tid) := by
  induction ts with
  | nil =>
      intro t' ht'
      simp [decrementAvailable] at ht'
  | cons t0 ts ih =>
      intro t' ht'
      by_cases h0 : t0.id = tid
      · simp only [decrementAvailable, if_pos h0] at ht'
        rcases List.mem_cons.mp ht' with rfl | hmem
        · exact h t0 (List.mem_cons_self _ _)
        · exact h t' (List.mem_cons_of_mem _ hmem)
      · simp only [decrementAvailable, if_neg h0] at ht'
        rcases List.mem_cons.mp ht' with rfl | hmem
        · exact h t' (List.mem_cons_self _ _)
        · exact ih (fun u hu => h u (List.mem_cons_of_mem _ hu)) t' hmem

/-- Incrementing a slot counter never changes sample rates or trim
ranges. -/
theorem targetRangesOk_increment (ts : List AudioTarget) (tid : Nat)
    (h : TargetRangesOk ts) : TargetRangesOk (incrementAvailable ts tid) := by
  induction ts with
  | nil =>
      intro t' ht'
      simp [incrementAvailable] at ht'
  | cons t0 ts ih =>
      intro t' ht'
      by_cases h0 : t0.id = tid
      · simp only [incrementAvailable, if_pos h0] at ht'
        rcases List.mem_cons.mp ht' with rfl | hmem
        · exact h t0 (List.mem_cons_self _ _)
        · exact h t' (List.mem_cons_of_mem _ hmem)
      · simp only [incrementAvailable, if_neg h0] at ht'
        rcases List.mem_cons.mp ht' with rfl | hmem
        · exact h t' (List.mem_cons_self _ _)
        · exact ih (fun u hu => h u (List.mem_cons_of_mem _ hu)) t' hmem

/-- The removal loop of the audio tick never changes sample rates or trim
ranges. -/
theorem targetRangesOk_fold (L : List (Nat × AudioPlay)) :
    ∀ (ts : List AudioTarget), TargetRangesOk ts →
      TargetRangesOk (L.foldl (fun ts p => if p.2.blocking then ts
        else incrementAvailable ts p.2.audioTargetId) ts) := by
  induction L with
  | nil => intro ts h; exact h
  | cons p L ih =>
      intro ts h
      rw [List.foldl_cons]
      by_cases hb : p.2.blocking
      · rw [if_pos hb]
        exact ih ts h
      · rw [if_neg hb]
        exact ih _ (targetRangesOk_increment ts _ h)

/-- `_queueSound` with a non-empty effective range produces a play
satisfying the bounds, and leaves the previous plays alone. -/
theorem playingInv_queueSound (s : AudioState) (t : AudioTarget) (a b r : ℚ)
    (bl : Bool) (hmem : t ∈ s.targets)
    (hrange : max a 0 ≤ min b (t.totalSamples - 1)) (h : PlayingInv s) :
    PlayingInv (queueSound s t a b r bl) := by
  obtain ⟨hT, hP⟩ := h
  refine ⟨hT, ?_⟩
  intro p hp
  simp only [queueSound] at hp
  rcases List.mem_append.mp hp with hp1 | hp2
  · exact hP p hp1
  · rcases List.mem_singleton.mp hp2 with rfl
    exact ⟨⟨le_refl _, hrange, le_refl _⟩, (hT t hmem).1⟩

/-- Advancing a play under a non-negative step time keeps it within
bounds. -/
theorem advanceSound_inv (stepTime : ℚ) (q : AudioPlay) (hst : 0 ≤ stepTime)
    (h : AudioPlayInv q) : AudioPlayInv (advanceSound stepTime q) := by
  obtain ⟨⟨h1, h2, h3⟩, h4⟩ := h
  have hinc : 0 ≤ stepTime / 1000 * q.sampleRate :=
    mul_nonneg (div_nonneg hst (by norm_num)) h4
  simp only [advanceSound]
  by_cases hov : q.playhead + stepTime / 1000 * q.sampleRate > q.end_
  · rw [if_pos hov]
    exact ⟨⟨le_trans h1 h2, le_refl _, h2⟩, h4⟩
  · rw [if_neg hov]
    exact ⟨⟨le_trans h1 (le_add_of_nonneg_right hinc), not_lt.mp hov,
      le_add_of_nonneg_right hinc⟩, h4⟩

/-- The audio tick preserves the play-bounds invariant. -/
theorem playingInv_audioTick (stepTime : ℚ) (s : AudioState) (hst : 0 ≤ stepTime)
    (h : PlayingInv s) : PlayingInv (audioTick stepTime s) := by
  obtain ⟨hT, hP⟩ := h
  simp only [audioTick]
  constructor
  · exact targetRangesOk_fold _ s.targets hT
  · intro p hp
    obtain ⟨q, hq, rfl⟩ := List.mem_map.mp hp
    exact advanceSound_inv stepTime q.2 hst (hP q (List.mem_of_mem_filter hq))

/-- `PROJECT_STOP_ALL` preserves the play-bounds invariant. -/
theorem playingInv_stopAllAudio (s : AudioState) (h : PlayingInv s) :
    PlayingInv (stopAllAudio s) := by
  obtain ⟨hT, _⟩ := h
  simp only [stopAllAudio]
  constructor
  · intro t' ht'
    obtain ⟨u, hu, rfl⟩ := List.mem_map.mp ht'
    exact hT u hu
  · intro p hp
    simp at hp

/-- Every valid audio event preserves the play-bounds invariant. -/
theorem playingInv_step (e : AudioEvent) (s : AudioState) (h : PlayingInv s)
    (he : eventOk s e) : PlayingInv (audioStep e s) := by
  cases e with
  | startSound tid =>
      show PlayingInv (startSound tid s)
      unfold startSound
      cases hf : getAudioTargetById s.targets tid with
      | none => exact h
      | some t =>
          obtain ⟨hmem, htid⟩ := getAudioTargetById_mem hf
          show PlayingInv (if 0 < t.nonblockingSoundsAvailable then
              { queueSound s t t.trimStart t.trimEnd t.playbackRate false with
                  targets := decrementAvailable
                    (queueSound s t t.trimStart t.trimEnd t.playbackRate false).targets tid }
            else s)
          by_cases hpos : 0 < t.nonblockingSoundsAvailable
          · rw [if_pos hpos]
            have hq := playingInv_queueSound s t t.trimStart t.trimEnd t.playbackRate
              false hmem (h.1 t hmem).2 h
            exact ⟨targetRangesOk_decrement _ tid hq.1, hq.2⟩
          · rw [if_neg hpos]
            exact h
  | startSoundFromAToB tid a b =>
      show PlayingInv (startSoundFromAToB tid a b s)
      unfold startSoundFromAToB
      cases hf : getAudioTargetById s.targets tid with
      | none => exact h
      | some t =>
          obtain ⟨hmem, htid⟩ := getAudioTargetById_mem hf
          show PlayingInv (if 0 < t.nonblockingSoundsAvailable then
              { queueSound s t a b t.playbackRate false with
                  targets := decrementAvailable
                    (queueSound s t a b t.playbackRate false).targets tid }
            else s)
          by_cases hpos : 0 < t.nonblockingSoundsAvailable
          · rw [if_pos hpos]
            have hq := playingInv_queueSound s t a b t.playbackRate
              false hmem (he t hmem htid) h
            exact ⟨targetRangesOk_decrement _ tid hq.1, hq.2⟩
          · rw [if_neg hpos]
            exact h
  | playSound tid =>
      show PlayingInv (playSoundQueue tid s)
      unfold playSoundQueue
      cases hf : getAudioTargetById s.targets tid with
      | none => exact h
      | some t =>
          obtain ⟨hmem, _⟩ := getAudioTargetById_mem hf
          show PlayingInv (queueSound s t t.trimStart t.trimEnd t.playbackRate true)
          exact playingInv_queueSound s t t.trimStart t.trimEnd t.playbackRate
            true hmem (h.1 t hmem).2 h
  | playSoundFromAToB tid a b =>
      show PlayingInv (playSoundFromAToBQueue tid a b s)
      unfold playSoundFromAToBQueue
      cases hf : getAudioTargetById s.targets tid with
      | none => exact h
      | some t =>
          obtain ⟨hmem, htid⟩ := getAudioTargetById_mem hf
          show PlayingInv (queueSound s t a b t.playbackRate true)
          exact playingInv_queueSound s t a b t.playbackRate true hmem
            (he t hmem htid) h
  | tick stepTime => exact playingInv_audioTick stepTime s he h
  | stopAll => exact playingInv_stopAllAudio s h

/-- Running a valid event trace preserves the play-bounds invariant. -/
theorem playingInv_run (events : List AudioEvent) :
    ∀ (s : AudioState), PlayingInv s → eventsOk events s →
      PlayingInv (runAudio events s) := by
  induction events with
  | nil => intro s h _; exact h
  | cons e es ih =>
      intro s h hev
      exact ih (audioStep e s) (playingInv_step e s h hev.1) hev.2

/-- Claim C5, amended: provided every queueing call asks for a non-empty
effective range — `max(start, 0) ≤ min(end, totalSamples - 1)`, as the
trim ranges do and as marker arguments with `a ≤ b` inside the clip do —
and tick step times are non-negative, every play in `audioState.playing`
satisfies `start ≤ playhead ≤ end` and `prevPlayhead ≤ playhead`. A
queueing call with an inverted range breaks the invariant at once (see
the counterexample). -/
theorem audio_play_bounds (s0 : AudioState) (hplay : s0.playing = [])
    (hT : TargetRangesOk s0.targets) (events : List AudioEvent)
    (hev : eventsOk events s0) :
    ∀ p ∈ (runAudio events s0).playing,
      p.2.start ≤ p.2.playhead ∧ p.2.playhead ≤ p.2.end_ ∧
        p.2.prevPlayhead ≤ p.2.playhead := by
  have h0 : PlayingInv s0 := by
    refine ⟨hT, ?_⟩
    intro p hp
    rw [hplay] at hp
    simp at hp
  intro p hp
  exact ((playingInv_run events s0 h0 hev).2 p hp).1

/-- Witness for `audio_play_bounds`: the play queued by `playSound` from
the sample state satisfies the bounds. -/
theorem audio_play_bounds_witness :
    sampleQueuedPlay.start ≤ sampleQueuedPlay.playhead ∧
      sampleQueuedPlay.playhead ≤ sampleQueuedPlay.end_ ∧
      sampleQueuedPlay.prevPlayhead ≤ sampleQueuedPlay.playhead :=
  audio_play_bounds sampleAudioState rfl
    (by
      intro t ht
      simp only [sampleAudioState, List.mem_singleton] at ht
      rw [ht]
      constructor
      · norm_num [sampleAudioTarget]
      · norm_num [sampleAudioTarget])
    [AudioEvent.playSound 0] ⟨trivial, trivial⟩
    (0, sampleQueuedPlay)
    (by
      show (0, sampleQueuedPlay) ∈ (runAudio [AudioEvent.playSound 0] sampleAudioState).playing
      simp [runAudio, audioStep, playSoundQueue, getAudioTargetById, queueSound,
        sampleAudioState, sampleAudioTarget, sampleQueuedPlay, List.find?]
      norm_num)

/-- Claim C5, counterexample: `playSoundFromAToB(10, 5)` — start marker
past end marker — queues a play with `playhead = start = 10 > 5 = end`,
so a reachable state violates `playhead ≤ end`. -/
theorem audio_play_bounds_cex :
    (runAudio [AudioEvent.playSoundFromAToB 0 10 5] sampleAudioState).playing
        = [(0, invertedPlay)] ∧
      ¬ (invertedPlay.playhead ≤ invertedPlay.end_) := by
  constructor
  · simp [runAudio, audioStep, playSoundFromAToBQueue, getAudioTargetById, queueSound,
      sampleAudioState, sampleAudioTarget, invertedPlay, List.find?]
    norm_num
  · norm_num [invertedPlay]

end Steina
